import Mathlib

/-!
Verification of the agent-studio task-evaluation subsystem.

This file gives a shallow embedding, in Lean 4, of the evaluation core of the
repository: the `EvaluatorComb` score combinator and `evaluator_router` /
`eval_tasks` (desktop_env/eval/evaluator_helper.py), the filesystem evaluator
(playground/desktop_env/eval/os_evaluators/filesystem_evaluator.py), the
Google-calendar event matcher and paginated listing loops
(desktop_env/eval/connectors/gspace/gcalendar.py), the trajectory export/load
round trip (agent_studio/utils/json_utils.py), and the worker status-polling
loop (playground/env/desktop_env/agent_interface.py).

Modelling conventions:
* Python floats are modelled as rationals (`ℚ`); every float produced by the
  embedded code is a product / weighted average of 0.0 and 1.0 values, for
  which rational arithmetic is exact.
* Python exceptions are modelled with `Except`: a raised exception is
  `.error`, normal return is `.ok`.
* The operating-system layer (open/os.stat/os.remove/...) and the remote
  Google API are external collaborators of the repository; they are modelled
  as explicit state (a flat path-to-entry map for the filesystem, a
  token-to-page function for the calendar API).
* ISO-8601 datetime strings are modelled by their parsed denotation: a
  structure holding the displayed ("naive") time in minutes together with an
  optional UTC offset in minutes.  `datetime.fromisoformat` is then the
  identity, and `astimezone()` / `isoformat()` act on the denotation.
-/

namespace AgentStudio

/-! ## EvaluatorComb (desktop_env/eval/evaluator_helper.py)

An evaluator's call operator queries external state and returns a score; we
model it as a state transformer `σ → σ × ℚ` so that "the evaluator was
invoked" is observable in the state thread. -/

/-- An evaluator, reduced to its call operator: it reads and mutates external
state and produces a score. -/
def Ev (σ : Type) : Type := σ → σ × ℚ

/-- The loop body of `EvaluatorComb.__call__`: iterate over the evaluators in
list order, threading external state, multiplying each returned score into
the running aggregate. -/
def combCallGo {σ : Type} : List (Ev σ) → σ → ℚ → σ × ℚ
  | [], s, score => (s, score)
  | ev :: rest, s, score =>
      let r := ev s
      combCallGo rest r.1 (score * r.2)

/-- `EvaluatorComb.__call__`: the aggregate score starts at 1.0 and every
evaluator is invoked in list order. -/
def combCall {σ : Type} (evaluators : List (Ev σ)) (s : σ) : σ × ℚ :=
  combCallGo evaluators s 1

/-- Specification-side sequential execution: the external state after running
every evaluator in list order. -/
def runEvals {σ : Type} : List (Ev σ) → σ → σ
  | [], s => s
  | ev :: rest, s => runEvals rest (ev s).1

/-- Specification-side score trace: the individual score of each evaluator,
in invocation order, threading the same state. -/
def evalScores {σ : Type} : List (Ev σ) → σ → List ℚ
  | [], _ => []
  | ev :: rest, s => (ev s).2 :: evalScores rest (ev s).1

/-- A constant-score evaluator over a trace state that records its own id;
used to observe invocation order concretely. -/
def traceEv (id : ℕ) (score : ℚ) : Ev (List ℕ) :=
  fun s => (s ++ [id], score)

theorem combCallGo_eq {σ : Type} (evs : List (Ev σ)) (s : σ) (a : ℚ) :
    combCallGo evs s a = (runEvals evs s, a * (evalScores evs s).prod) := by
  induction evs generalizing s a with
  | nil => simp [combCallGo, runEvals, evalScores]
  | cons ev rest ih =>
      simp only [combCallGo, runEvals, evalScores, ih, List.prod_cons]
      ring_nf

/-- Claim C1: `EvaluatorComb.__call__` invokes every evaluator in list order
(the final external state is the one obtained by sequentially running all
evaluators — no short-circuiting, even after a 0.0 score) and returns the
product of their individual scores, the aggregate being initialized at 1.0.
In particular the empty list yields 1.0, scores {1.0, 1.0} yield 1.0, and
{1.0, 0.0} yield 0.0 while still invoking every evaluator. -/
theorem evaluatorComb_call_is_product :
    (∀ (σ : Type) (evs : List (Ev σ)) (s : σ),
        combCall evs s = (runEvals evs s, (evalScores evs s).prod))
    ∧ (∀ (σ : Type) (s : σ), combCall ([] : List (Ev σ)) s = (s, 1))
    ∧ combCall [traceEv 0 1, traceEv 1 1] [] = ([0, 1], 1)
    ∧ combCall [traceEv 0 1, traceEv 1 0] [] = ([0, 1], 0)
    ∧ combCall [traceEv 0 1, traceEv 1 0, traceEv 2 1] [] = ([0, 1, 2], 0) := by
  refine ⟨?_, ?_, ?_, ?_, ?_⟩
  · intro σ evs s
    simp [combCall, combCallGo_eq]
  · intro σ s
    simp [combCall, combCallGo]
  · norm_num [combCall, combCallGo, traceEv]
  · norm_num [combCall, combCallGo, traceEv]
  · norm_num [combCall, combCallGo, traceEv]

/-! ## Filesystem model

The OS filesystem (accessed by the evaluator through `open`, `os.*`, `Path`,
`shutil`) is modelled as a flat map from path strings to entries.  An entry
carries the stat information the evaluator reads (`st_mode`, `st_mtime`,
`st_ctime`, `st_size`, owner and group names). -/

structure Stat where
  mode : ℕ
  mtime : ℤ
  ctime : ℤ
  size : ℤ
  owner : String
  group : String
deriving DecidableEq, Repr

inductive Entry where
  | file (content : String) (st : Stat)
  | dir (st : Stat)
deriving DecidableEq, Repr

abbrev FS := List (String × Entry)

def statOf : Entry → Stat
  | .file _ st => st
  | .dir st => st

def fsLookup (fs : FS) (path : String) : Option Entry :=
  (fs.find? (fun p => p.1 == path)).map (·.2)

def fsSet (fs : FS) (path : String) (e : Entry) : FS :=
  if (fs.find? (fun p => p.1 == path)).isSome then
    fs.map (fun p => if p.1 == path then (path, e) else p)
  else
    fs ++ [(path, e)]

def fsRemove (fs : FS) (path : String) : FS :=
  fs.filter (fun p => p.1 != path)

/-- `shutil.rmtree`: remove the directory and everything below it. -/
def fsRemoveTree (fs : FS) (path : String) : FS :=
  fs.filter (fun p => !(p.1 == path || (path ++ "/").isPrefixOf p.1))

/-- `os.rename` / `mv`: move an entry and, for a directory, its subtree. -/
def fsMove (fs : FS) (src dst : String) : FS :=
  fs.map (fun p =>
    if p.1 == src then (dst, p.2)
    else if (src ++ "/").isPrefixOf p.1 then
      (dst ++ "/" ++ p.1.drop (src.length + 1), p.2)
    else p)

/-- Stat of a freshly created file or directory (creation time, umask and
ownership are environment-determined; the model fixes them). -/
def newStat : Stat := ⟨420, 0, 0, 0, "user", "user"⟩

/-! ## Evaluation-step parameter values

A step is a JSON object `{action: params}`; the parameter values appearing in
the filesystem evaluator's vocabulary are booleans (`exists`), strings
(paths, permissions, contents) and metadata dictionaries.  Metadata values
that are valid ISO datetime strings are modelled by their parsed denotation
(`MetaVal.time`, in the same naive-minutes scale as `Stat.mtime`). -/

inductive MetaVal where
  | time (t : ℤ)
  | int (n : ℤ)
  | str (s : String)
deriving DecidableEq, Repr

inductive FVal where
  | bool (b : Bool)
  | str (s : String)
  | meta (m : List (String × MetaVal))
deriving DecidableEq, Repr

abbrev Params := List (String × FVal)

/-- A step of `FilesystemEvaluator.execute`: a dict from action name to its
parameter dict. -/
abbrev Step := List (String × Params)

/-- Python `==` between a `bool` and an arbitrary parameter value. -/
def pyEqBool (b : Bool) : FVal → Bool
  | .bool c => b == c
  | _ => false

/-- Python `==` between a `str` and an arbitrary parameter value. -/
def pyEqStr (s : String) : FVal → Bool
  | .str t => s == t
  | _ => false

def getParam (params : Params) (k : String) : Except Unit FVal :=
  match (params.find? (fun p => p.1 == k)).map (·.2) with
  | some v => .ok v
  | none => .error ()   -- KeyError

/-- Using a parameter as a path (`open`, `os.*`): non-strings raise. -/
def asStr : FVal → Except Unit String
  | .str s => .ok s
  | _ => .error ()      -- TypeError

/-- Python `int(s, 8)`: parse a non-empty run of octal digits, `ValueError`
otherwise (prefixes, signs and underscores are not modelled). -/
def parseOctal (s : String) : Option ℕ :=
  if s.isEmpty then none
  else s.data.foldl
    (fun acc c =>
      acc.bind (fun n =>
        if '0' ≤ c ∧ c ≤ '7' then some (n * 8 + (c.toNat - 48)) else none))
    (some 0)

/-- One `rwx` triple of `stat.filemode`. -/
def rwxStr (m : ℕ) : String :=
  (if m &&& 4 ≠ 0 then "r" else "-")
    ++ (if m &&& 2 ≠ 0 then "w" else "-")
    ++ (if m &&& 1 ≠ 0 then "x" else "-")

/-- `stat.filemode` restricted to the mode bits the model tracks. -/
def filemodeStr (e : Entry) : String :=
  (match e with | .file _ _ => "-" | .dir _ => "d")
    ++ rwxStr ((statOf e).mode / 64)
    ++ rwxStr ((statOf e).mode / 8)
    ++ rwxStr (statOf e).mode

/-! ## FilesystemEvaluator check helpers
(playground/desktop_env/eval/os_evaluators/filesystem_evaluator.py) -/

/-- `FilesystemEvaluator.exists`: `Path(path).exists()`. -/
def fsExists (fs : FS) (path : String) : Bool :=
  (fsLookup fs path).isSome

/-- `Path(path).is_file()`. -/
def fsIsFile (fs : FS) (path : String) : Bool :=
  match fsLookup fs path with
  | some (.file _ _) => true
  | _ => false

/-- `Path(path).is_dir()`. -/
def fsIsDir (fs : FS) (path : String) : Bool :=
  match fsLookup fs path with
  | some (.dir _) => true
  | _ => false

/-- `FilesystemEvaluator.file_content_match`: read the file and compare with
`==`; an `IOError` (missing path, or path is a directory) yields `False`. -/
def file_content_match (fs : FS) (path : String) (expected : FVal) : Bool :=
  match fsLookup fs path with
  | some (.file c _) => pyEqStr c expected
  | _ => false

/-- `FilesystemEvaluator.permission_match`: `os.stat` runs first, so a
missing path gives `False` via `except IOError`; then the expected value is
parsed as octal (`ValueError` falls back to a `stat.filemode` comparison);
a non-string expected value raises an uncaught `TypeError` in `int(_, 8)`. -/
def permission_match (fs : FS) (path : String) (expected : FVal) :
    Except Unit Bool :=
  match fsLookup fs path with
  | none => .ok false
  | some e =>
    match expected with
    | .str s =>
      match parseOctal s with
      | some n => .ok (decide ((statOf e).mode &&& 511 = n))
      | none => .ok (filemodeStr e == s)
    | _ => .error ()

/-- The key loop of `FilesystemEvaluator.file_metadata_match`: keys other
than the five recognized ones are ignored; `last_modified`/`creation_time`
values that are not valid ISO datetime strings raise uncaught errors in
`datetime.fromisoformat`; mismatched types for `size`/`owner`/`group` simply
compare unequal. -/
def metadataGo (st : Stat) : List (String × MetaVal) → Except Unit Bool
  | [] => .ok true
  | (k, v) :: rest =>
    if k == "last_modified" then
      match v with
      | .time t => if st.mtime == t then metadataGo st rest else .ok false
      | _ => .error ()
    else if k == "creation_time" then
      match v with
      | .time t => if st.ctime == t then metadataGo st rest else .ok false
      | _ => .error ()
    else if k == "size" then
      match v with
      | .int n => if st.size == n then metadataGo st rest else .ok false
      | _ => .ok false
    else if k == "owner" then
      match v with
      | .str s => if st.owner == s then metadataGo st rest else .ok false
      | _ => .ok false
    else if k == "group" then
      match v with
      | .str s => if st.group == s then metadataGo st rest else .ok false
      | _ => .ok false
    else metadataGo st rest

/-- `FilesystemEvaluator.file_metadata_match`: a missing path gives `False`
via `except IOError`; a non-dict metadata value raises before this helper is
entered (handled at the call site). -/
def file_metadata_match (fs : FS) (path : String)
    (m : List (String × MetaVal)) : Except Unit Bool :=
  match fsLookup fs path with
  | none => .ok false
  | some e => metadataGo (statOf e) m

/-! ## FilesystemEvaluator mutating actions -/

/-- The optional `content` parameter of `create_file`: absent means an empty
file; `f.write` on a non-string raises `TypeError`. -/
def contentParam (params : Params) : Except Unit String :=
  match (params.find? (fun p => p.1 == "content")).map (·.2) with
  | none => .ok ""
  | some (FVal.str s) => .ok s
  | some _ => .error ()

/-- `create_file`: `open(path, "w")` truncates an existing file (keeping its
stat) or creates a new one; opening an existing directory for writing
raises. -/
def doCreateFile (fs : FS) (params : Params) : Except Unit FS := do
  let path ← getParam params "path" >>= asStr
  let content ← contentParam params
  match fsLookup fs path with
  | some (.dir _) => .error ()   -- IsADirectoryError
  | some (.file _ st) => .ok (fsSet fs path (.file content st))
  | none => .ok (fsSet fs path (.file content newStat))

/-- `mkdir(parents=True, exist_ok=True)`: a no-op on an existing directory;
an existing file at the path raises `FileExistsError`. -/
def doMkdir (fs : FS) (params : Params) : Except Unit FS := do
  let path ← getParam params "path" >>= asStr
  match fsLookup fs path with
  | some (.file _ _) => .error ()
  | some (.dir _) => .ok fs
  | none => .ok (fsSet fs path (.dir newStat))

/-- `rm`: guarded by `os.path.exists and os.path.isfile`, so it never raises
on a missing or non-file path. -/
def doRm (fs : FS) (params : Params) : Except Unit FS := do
  let path ← getParam params "path" >>= asStr
  match fsLookup fs path with
  | some (.file _ _) => .ok (fsRemove fs path)
  | _ => .ok fs

/-- `rmdir`: guarded `shutil.rmtree`. -/
def doRmdir (fs : FS) (params : Params) : Except Unit FS := do
  let path ← getParam params "path" >>= asStr
  match fsLookup fs path with
  | some (.dir _) => .ok (fsRemoveTree fs path)
  | _ => .ok fs

/-- `rename`: `os.rename` raises on a missing source. -/
def doRename (fs : FS) (params : Params) : Except Unit FS := do
  let old ← getParam params "old_name" >>= asStr
  let dst ← getParam params "new_name" >>= asStr
  match fsLookup fs old with
  | none => .error ()   -- FileNotFoundError
  | some _ => .ok (fsMove fs old dst)

/-- `copy`: `os.system(f"cp {src} {dest}")` — the exit status is discarded,
so a failed copy (missing source, or a directory without `-r`) is silently a
no-op and never raises. -/
def doCopy (fs : FS) (params : Params) : Except Unit FS := do
  let src ← getParam params "src" >>= asStr
  let dst ← getParam params "dest" >>= asStr
  match fsLookup fs src with
  | some (.file c st) => .ok (fsSet fs dst (.file c st))
  | _ => .ok fs

/-- `move`: `os.system(f"mv {src} {dest}")` — exit status discarded, silent
no-op on a missing source. -/
def doMove (fs : FS) (params : Params) : Except Unit FS := do
  let src ← getParam params "src" >>= asStr
  let dst ← getParam params "dest" >>= asStr
  match fsLookup fs src with
  | none => .ok fs
  | some _ => .ok (fsMove fs src dst)

/-- `chmod`: `int(params["mode"], 8)` raises `TypeError` on a non-string and
`ValueError` on a non-octal string; `os.chmod` raises on a missing path. -/
def doChmod (fs : FS) (params : Params) : Except Unit FS := do
  let path ← getParam params "path" >>= asStr
  let modeStr ← getParam params "mode"
  match modeStr with
  | .str s =>
    match parseOctal s with
    | none => .error ()   -- ValueError
    | some n =>
      match fsLookup fs path with
      | none => .error () -- FileNotFoundError
      | some (.file c st) => .ok (fsSet fs path (.file c { st with mode := n }))
      | some (.dir st) => .ok (fsSet fs path (.dir { st with mode := n }))
  | _ => .error ()        -- TypeError

/-! ## FilesystemEvaluator.execute -/

/-- `float(b)` for a boolean check result. -/
def boolToQ (b : Bool) : ℚ := if b then 1 else 0

/-- `exists` check: `score *= float(FilesystemEvaluator.exists(path) == exists)`
for every item of the parameter dict. -/
def existsFold (fs : FS) : Params → ℚ → ℚ
  | [], score => score
  | (path, v) :: rest, score =>
      existsFold fs rest (score * boolToQ (pyEqBool (fsExists fs path) v))

/-- `type_check`: `"file"` checks `is_file`, `"folder"` checks `is_dir`, any
other expected value is silently skipped. -/
def typeCheckFold (fs : FS) : Params → ℚ → ℚ
  | [], score => score
  | (path, v) :: rest, score =>
      if v == .str "file" then
        typeCheckFold fs rest (score * boolToQ (fsIsFile fs path))
      else if v == .str "folder" then
        typeCheckFold fs rest (score * boolToQ (fsIsDir fs path))
      else typeCheckFold fs rest score

/-- `content_check`: `score *= float(self.file_content_match(path, content))`. -/
def contentCheckFold (fs : FS) : Params → ℚ → ℚ
  | [], score => score
  | (path, v) :: rest, score =>
      contentCheckFold fs rest (score * boolToQ (file_content_match fs path v))

/-- `permissions_check`: `score *= float(self.permission_match(path, perms))`,
where `permission_match` can raise. -/
def permissionsFold (fs : FS) : Params → ℚ → Except Unit ℚ
  | [], score => .ok score
  | (path, v) :: rest, score =>
      match permission_match fs path v with
      | .error e => .error e
      | .ok b => permissionsFold fs rest (score * boolToQ b)

/-- `metadata_check`: `score *= float(self.file_metadata_match(path, meta))`;
a non-dict metadata value raises (`metadata.items()` on a non-dict). -/
def metadataFold (fs : FS) : Params → ℚ → Except Unit ℚ
  | [], score => .ok score
  | (path, .meta m) :: rest, score =>
      match file_metadata_match fs path m with
      | .error e => .error e
      | .ok b => metadataFold fs rest (score * boolToQ b)
  | (_, .bool _) :: _, _ => .error ()
  | (_, .str _) :: _, _ => .error ()

/-- The `match action` dispatch of `FilesystemEvaluator.execute` for one
`action: params` item; an unknown action raises
(`raise Exception(f"Action {action} not found")`). -/
def runAction (fs : FS) (score : ℚ) (action : String) (params : Params) :
    Except Unit (FS × ℚ) :=
  if action == "create_file" then (doCreateFile fs params).map (·, score)
  else if action == "mkdir" then (doMkdir fs params).map (·, score)
  else if action == "rm" then (doRm fs params).map (·, score)
  else if action == "rmdir" then (doRmdir fs params).map (·, score)
  else if action == "rename" then (doRename fs params).map (·, score)
  else if action == "copy" then (doCopy fs params).map (·, score)
  else if action == "move" then (doMove fs params).map (·, score)
  else if action == "chmod" then (doChmod fs params).map (·, score)
  else if action == "exists" then .ok (fs, existsFold fs params score)
  else if action == "type_check" then .ok (fs, typeCheckFold fs params score)
  else if action == "permissions_check" then
    (permissionsFold fs params score).map (fs, ·)
  else if action == "content_check" then
    .ok (fs, contentCheckFold fs params score)
  else if action == "metadata_check" then
    (metadataFold fs params score).map (fs, ·)
  else .error ()

/-- `for action, params in step.items()`. -/
def runItems (fs : FS) (score : ℚ) : List (String × Params) →
    Except Unit (FS × ℚ)
  | [] => .ok (fs, score)
  | (action, params) :: rest =>
      match runAction fs score action params with
      | .error e => .error e
      | .ok r => runItems r.1 r.2 rest

/-- `for step in steps`. -/
def runStepList (fs : FS) (score : ℚ) : List Step → Except Unit (FS × ℚ)
  | [] => .ok (fs, score)
  | step :: rest =>
      match runItems fs score step with
      | .error e => .error e
      | .ok r => runStepList r.1 r.2 rest

/-- `FilesystemEvaluator.execute`: the score starts at 1.0, the whole step
loop runs inside one `try`, and any exception is caught and mapped to a
score of 0.0. -/
def execute (steps : List Step) (fs : FS) : ℚ :=
  match runStepList fs 1 steps with
  | .ok r => r.2
  | .error _ => 0

/-! ## Instrumented check-trace semantics

The specification-side run of `execute` collects the boolean outcome of each
executed assertion comparison, in execution order, instead of multiplying it
into the running score. -/

def existsTrace (fs : FS) : Params → List Bool
  | [] => []
  | (path, v) :: rest => pyEqBool (fsExists fs path) v :: existsTrace fs rest

def typeCheckTrace (fs : FS) : Params → List Bool
  | [] => []
  | (path, v) :: rest =>
      if v == .str "file" then fsIsFile fs path :: typeCheckTrace fs rest
      else if v == .str "folder" then fsIsDir fs path :: typeCheckTrace fs rest
      else typeCheckTrace fs rest

def contentCheckTrace (fs : FS) : Params → List Bool
  | [] => []
  | (path, v) :: rest => file_content_match fs path v :: contentCheckTrace fs rest

def permissionsTrace (fs : FS) : Params → Except Unit (List Bool)
  | [] => .ok []
  | (path, v) :: rest =>
      match permission_match fs path v with
      | .error e => .error e
      | .ok b =>
          match permissionsTrace fs rest with
          | .error e => .error e
          | .ok bs => .ok (b :: bs)

def metadataTrace (fs : FS) : Params → Except Unit (List Bool)
  | [] => .ok []
  | (path, .meta m) :: rest =>
      match file_metadata_match fs path m with
      | .error e => .error e
      | .ok b =>
          match metadataTrace fs rest with
          | .error e => .error e
          | .ok bs => .ok (b :: bs)
  | (_, .bool _) :: _ => .error ()
  | (_, .str _) :: _ => .error ()

def traceAction (fs : FS) (action : String) (params : Params) :
    Except Unit (FS × List Bool) :=
  if action == "create_file" then (doCreateFile fs params).map (·, [])
  else if action == "mkdir" then (doMkdir fs params).map (·, [])
  else if action == "rm" then (doRm fs params).map (·, [])
  else if action == "rmdir" then (doRmdir fs params).map (·, [])
  else if action == "rename" then (doRename fs params).map (·, [])
  else if action == "copy" then (doCopy fs params).map (·, [])
  else if action == "move" then (doMove fs params).map (·, [])
  else if action == "chmod" then (doChmod fs params).map (·, [])
  else if action == "exists" then .ok (fs, existsTrace fs params)
  else if action == "type_check" then .ok (fs, typeCheckTrace fs params)
  else if action == "permissions_check" then
    (permissionsTrace fs params).map (fs, ·)
  else if action == "content_check" then
    .ok (fs, contentCheckTrace fs params)
  else if action == "metadata_check" then
    (metadataTrace fs params).map (fs, ·)
  else .error ()

def traceItems (fs : FS) : List (String × Params) →
    Except Unit (FS × List Bool)
  | [] => .ok (fs, [])
  | (action, params) :: rest =>
      match traceAction fs action params with
      | .error e => .error e
      | .ok r =>
          match traceItems r.1 rest with
          | .error e => .error e
          | .ok r' => .ok (r'.1, r.2 ++ r'.2)

def traceStepList (fs : FS) : List Step → Except Unit (FS × List Bool)
  | [] => .ok (fs, [])
  | step :: rest =>
      match traceItems fs step with
      | .error e => .error e
      | .ok r =>
          match traceStepList r.1 rest with
          | .error e => .error e
          | .ok r' => .ok (r'.1, r.2 ++ r'.2)

/-- The trace of assertion-check outcomes of a run of `execute`, or the
point of the first exception. -/
def checkTrace (steps : List Step) (fs : FS) : Except Unit (List Bool) :=
  (traceStepList fs steps).map (·.2)

/-- The product of the `float(b)` values of a list of check outcomes. -/
def prodInd (bs : List Bool) : ℚ := (bs.map boolToQ).prod

theorem prodInd_nil : prodInd [] = 1 := rfl

theorem prodInd_cons (b : Bool) (bs : List Bool) :
    prodInd (b :: bs) = boolToQ b * prodInd bs := by
  simp [prodInd]

theorem prodInd_append (as bs : List Bool) :
    prodInd (as ++ bs) = prodInd as * prodInd bs := by
  simp [prodInd]

theorem prodInd_zero_or_one (bs : List Bool) :
    prodInd bs = 0 ∨ prodInd bs = 1 := by
  induction bs with
  | nil => right; rfl
  | cons b rest ih =>
      rw [prodInd_cons]
      cases b <;> rcases ih with h | h <;> simp [boolToQ, h]

theorem prodInd_eq_one_iff (bs : List Bool) :
    prodInd bs = 1 ↔ ∀ b ∈ bs, b = true := by
  induction bs with
  | nil => simp [prodInd_nil]
  | cons b rest ih =>
      rw [prodInd_cons]
      cases b
      · simp [boolToQ]
      · simp [boolToQ, ih]

theorem prodInd_zero_of_mem_false (bs : List Bool) (h : false ∈ bs) :
    prodInd bs = 0 := by
  induction bs with
  | nil => cases h
  | cons b rest ih =>
      rw [prodInd_cons]
      rcases List.mem_cons.mp h with h1 | h1
      · rw [← h1]; simp [boolToQ]
      · rw [ih h1, mul_zero]

theorem existsFold_eq (fs : FS) (ps : Params) (score : ℚ) :
    existsFold fs ps score = score * prodInd (existsTrace fs ps) := by
  induction ps generalizing score with
  | nil => simp [existsFold, existsTrace, prodInd_nil]
  | cons p rest ih =>
      obtain ⟨path, v⟩ := p
      rw [existsFold, existsTrace, prodInd_cons, ih]
      ring

theorem typeCheckFold_eq (fs : FS) (ps : Params) (score : ℚ) :
    typeCheckFold fs ps score = score * prodInd (typeCheckTrace fs ps) := by
  induction ps generalizing score with
  | nil => simp [typeCheckFold, typeCheckTrace, prodInd_nil]
  | cons p rest ih =>
      obtain ⟨path, v⟩ := p
      rw [typeCheckFold, typeCheckTrace]
      by_cases h1 : v == FVal.str "file"
      · rw [if_pos h1, if_pos h1, prodInd_cons, ih]; ring
      · rw [if_neg h1, if_neg h1]
        by_cases h2 : v == FVal.str "folder"
        · rw [if_pos h2, if_pos h2, prodInd_cons, ih]; ring
        · rw [if_neg h2, if_neg h2, ih]

theorem contentCheckFold_eq (fs : FS) (ps : Params) (score : ℚ) :
    contentCheckFold fs ps score = score * prodInd (contentCheckTrace fs ps) := by
  induction ps generalizing score with
  | nil => simp [contentCheckFold, contentCheckTrace, prodInd_nil]
  | cons p rest ih =>
      obtain ⟨path, v⟩ := p
      rw [contentCheckFold, contentCheckTrace, prodInd_cons, ih]
      ring

theorem permissionsFold_eq (fs : FS) (ps : Params) (score : ℚ) :
    permissionsFold fs ps score
      = (permissionsTrace fs ps).map (fun bs => score * prodInd bs) := by
  induction ps generalizing score with
  | nil => simp [permissionsFold, permissionsTrace, prodInd_nil, Except.map]
  | cons p rest ih =>
      obtain ⟨path, v⟩ := p
      cases h : permission_match fs path v with
      | error e => simp [permissionsFold, permissionsTrace, h, Except.map]
      | ok b =>
          simp only [permissionsFold, permissionsTrace, h, ih]
          cases h2 : permissionsTrace fs rest with
          | error e => simp [Except.map]
          | ok bs =>
              simp only [Except.map, prodInd_cons]
              congr 1
              ring

theorem metadataFold_eq (fs : FS) (ps : Params) (score : ℚ) :
    metadataFold fs ps score
      = (metadataTrace fs ps).map (fun bs => score * prodInd bs) := by
  induction ps generalizing score with
  | nil => simp [metadataFold, metadataTrace, prodInd_nil, Except.map]
  | cons p rest ih =>
      obtain ⟨path, v⟩ := p
      cases v with
      | meta m =>
          cases h : file_metadata_match fs path m with
          | error e => simp [metadataFold, metadataTrace, h, Except.map]
          | ok b =>
              simp only [metadataFold, metadataTrace, h, ih]
              cases h2 : metadataTrace fs rest with
              | error e => simp [Except.map]
              | ok bs =>
                  simp only [Except.map, prodInd_cons]
                  congr 1
                  ring
      | bool b => simp [metadataFold, metadataTrace, Except.map]
      | str s => simp [metadataFold, metadataTrace, Except.map]

theorem mutMapEq (m : Except Unit FS) (score : ℚ) :
    m.map (fun fs' => (fs', score))
      = (m.map (fun fs' => (fs', ([] : List Bool)))).map
          (fun r => (r.1, score * prodInd r.2)) := by
  cases m <;> simp [Except.map, prodInd_nil]

set_option maxHeartbeats 1000000 in
theorem runAction_eq (fs : FS) (score : ℚ) (action : String) (params : Params) :
    runAction fs score action params
      = (traceAction fs action params).map
          (fun r => (r.1, score * prodInd r.2)) := by
  rw [runAction, traceAction]
  by_cases h1 : (action == "create_file") = true
  · rw [if_pos h1, if_pos h1]; apply mutMapEq
  rw [if_neg h1, if_neg h1]
  by_cases h2 : (action == "mkdir") = true
  · rw [if_pos h2, if_pos h2]; apply mutMapEq
  rw [if_neg h2, if_neg h2]
  by_cases h3 : (action == "rm") = true
  · rw [if_pos h3, if_pos h3]; apply mutMapEq
  rw [if_neg h3, if_neg h3]
  by_cases h4 : (action == "rmdir") = true
  · rw [if_pos h4, if_pos h4]; apply mutMapEq
  rw [if_neg h4, if_neg h4]
  by_cases h5 : (action == "rename") = true
  · rw [if_pos h5, if_pos h5]; apply mutMapEq
  rw [if_neg h5, if_neg h5]
  by_cases h6 : (action == "copy") = true
  · rw [if_pos h6, if_pos h6]; apply mutMapEq
  rw [if_neg h6, if_neg h6]
  by_cases h7 : (action == "move") = true
  · rw [if_pos h7, if_pos h7]; apply mutMapEq
  rw [if_neg h7, if_neg h7]
  by_cases h8 : (action == "chmod") = true
  · rw [if_pos h8, if_pos h8]; apply mutMapEq
  rw [if_neg h8, if_neg h8]
  by_cases h9 : (action == "exists") = true
  · rw [if_pos h9, if_pos h9]; simp [Except.map, existsFold_eq]
  rw [if_neg h9, if_neg h9]
  by_cases h10 : (action == "type_check") = true
  · rw [if_pos h10, if_pos h10]; simp [Except.map, typeCheckFold_eq]
  rw [if_neg h10, if_neg h10]
  by_cases h11 : (action == "permissions_check") = true
  · rw [if_pos h11, if_pos h11, permissionsFold_eq]
    cases permissionsTrace fs params <;> simp [Except.map]
  rw [if_neg h11, if_neg h11]
  by_cases h12 : (action == "content_check") = true
  · rw [if_pos h12, if_pos h12]; simp [Except.map, contentCheckFold_eq]
  rw [if_neg h12, if_neg h12]
  by_cases h13 : (action == "metadata_check") = true
  · rw [if_pos h13, if_pos h13, metadataFold_eq]
    cases metadataTrace fs params <;> simp [Except.map]
  rw [if_neg h13, if_neg h13]
  rfl

theorem runItems_eq (items : List (String × Params)) (fs : FS) (score : ℚ) :
    runItems fs score items
      = (traceItems fs items).map (fun r => (r.1, score * prodInd r.2)) := by
  induction items generalizing fs score with
  | nil => simp [runItems, traceItems, Except.map, prodInd_nil]
  | cons it rest ih =>
      obtain ⟨action, params⟩ := it
      rw [runItems, traceItems, runAction_eq]
      cases h : traceAction fs action params with
      | error e => simp [Except.map]
      | ok r =>
          simp only [Except.map, ih]
          cases h2 : traceItems r.1 rest with
          | error e => simp [Except.map]
          | ok r' =>
              simp only [Except.map, prodInd_append]
              congr 2
              ring

theorem runStepList_eq (steps : List Step) (fs : FS) (score : ℚ) :
    runStepList fs score steps
      = (traceStepList fs steps).map (fun r => (r.1, score * prodInd r.2)) := by
  induction steps generalizing fs score with
  | nil => simp [runStepList, traceStepList, Except.map, prodInd_nil]
  | cons step rest ih =>
      rw [runStepList, traceStepList, runItems_eq]
      cases h : traceItems fs step with
      | error e => simp [Except.map]
      | ok r =>
          simp only [Except.map, ih]
          cases h2 : traceStepList r.1 rest with
          | error e => simp [Except.map]
          | ok r' =>
              simp only [Except.map, prodInd_append]
              congr 2
              ring

theorem execute_eq_prodInd (steps : List Step) (fs : FS) (bs : List Bool)
    (h : checkTrace steps fs = Except.ok bs) :
    execute steps fs = prodInd bs := by
  have hrun := runStepList_eq steps fs 1
  rw [checkTrace] at h
  cases h2 : traceStepList fs steps with
  | error e => rw [h2] at h; exact absurd h (by simp [Except.map])
  | ok r =>
      rw [h2] at h
      simp only [Except.map] at h
      injection h with h
      rw [h2] at hrun
      simp only [Except.map] at hrun
      rw [execute, hrun, h, one_mul]

theorem execute_eq_zero_of_traceError (steps : List Step) (fs : FS) (e : Unit)
    (h : checkTrace steps fs = Except.error e) :
    execute steps fs = 0 := by
  have hrun := runStepList_eq steps fs 1
  rw [checkTrace] at h
  cases h2 : traceStepList fs steps with
  | error e' =>
      rw [execute, hrun, h2]
      simp [Except.map]
  | ok r => rw [h2] at h; exact absurd h (by simp [Except.map])

/-- Claim C2: the score returned by `FilesystemEvaluator.execute` equals the
product of the 0.0/1.0 results of the assertion checks it executed (`exists`,
`type_check`, `permissions_check`, `content_check`, `metadata_check`), so the
score is 1.0 iff every executed check passes and any single failing check
drives it to 0.0; and when any step raises an exception, the exception is
caught and the score is 0.0. -/
theorem filesystemExecute_score_spec (steps : List Step) (fs : FS) :
    (∀ bs, checkTrace steps fs = Except.ok bs →
        execute steps fs = prodInd bs
          ∧ (execute steps fs = 1 ↔ ∀ b ∈ bs, b = true)
          ∧ ((∃ b ∈ bs, b = false) → execute steps fs = 0))
    ∧ (∀ e : Unit, checkTrace steps fs = Except.error e →
        execute steps fs = 0) := by
  constructor
  · intro bs hbs
    have hex := execute_eq_prodInd steps fs bs hbs
    refine ⟨hex, ?_, ?_⟩
    · rw [hex]; exact prodInd_eq_one_iff bs
    · rintro ⟨b, hb, hbf⟩
      rw [hex]
      exact prodInd_zero_of_mem_false bs (hbf ▸ hb)
  · exact fun e he => execute_eq_zero_of_traceError steps fs e he

/-- A filesystem holding one file, used as a concrete witness input. -/
def fsA : FS := [("a.txt", .file "hi" ⟨420, 0, 0, 2, "user", "user"⟩)]

/-- A step asserting that `a.txt` exists (passes on `fsA`) and that `b.txt`
exists (fails on `fsA`). -/
def stepsExist : List Step := [[("exists", [("a.txt", .bool true), ("b.txt", .bool true)])]]

/-- A step whose action name is not in the evaluator's vocabulary; executing
it raises. -/
def stepsBad : List Step := [[("frobnicate", [])]]

theorem filesystemExecute_score_spec_witness :
    checkTrace stepsExist fsA = Except.ok [true, false]
      ∧ execute stepsExist fsA = 0
      ∧ checkTrace stepsBad fsA = Except.error ()
      ∧ execute stepsBad fsA = 0 := by
  have h1 : checkTrace stepsExist fsA = Except.ok [true, false] := by rfl
  have h2 : checkTrace stepsBad fsA = Except.error () := by rfl
  refine ⟨h1, ?_, h2, ?_⟩
  · exact ((filesystemExecute_score_spec stepsExist fsA).1 [true, false] h1).2.2
      ⟨false, by simp, rfl⟩
  · exact (filesystemExecute_score_spec stepsBad fsA).2 () h2

/-- Claim C9: `FilesystemEvaluator.execute` only ever returns exactly 0.0 or
exactly 1.0 — never a value strictly between — since every factor multiplied
into the running score is 0.0 or 1.0 and an exception resets the score to
0.0. -/
theorem filesystemExecute_zero_or_one (steps : List Step) (fs : FS) :
    execute steps fs = 0 ∨ execute steps fs = 1 := by
  rw [execute, runStepList_eq]
  cases h : traceStepList fs steps with
  | error e => simp [Except.map]
  | ok r =>
      simp only [Except.map, one_mul]
      exact prodInd_zero_or_one r.2

/-! ## Evaluator router and eval_tasks
(desktop_env/eval/evaluator_helper.py)

A bridge (connector handle) binds an evaluator to a live external system.
For the filesystem bridge, the relevant external state is the OS filesystem;
for the calendar bridge it is the remote calendar.  `get_env_settings` is an
opaque payload stored on the evaluator at construction. -/

structure Bridge where
  fs : FS
  settings : ℕ
  gcalScore : ℚ
deriving Repr

def get_env_settings (b : Bridge) : ℕ := b.settings

/-- One entry of the task config's `evals` list:
`{eval_type, reference_answers}`.  Reference answers are carried as the step
lists the filesystem evaluator consumes; the calendar evaluator's reference
answers are opaque to the code embedded here, which only passes them
through. -/
structure EvalDecl where
  eval_type : String
  reference_answers : List Step
deriving Repr

/-- A task configuration: `evals`, `reset_actions` (defaulting to `[]` via
`task_configs.get("reset_actions", [])`) and the per-task weight `score`. -/
structure TaskConfig where
  evals : List EvalDecl
  reset_actions : List Step := []
  score : ℚ
deriving Repr

/-- The constructed evaluator objects, holding exactly the arguments the
router injects. -/
inductive EvaluatorObj where
  | googleCalendar (reference_answer : List Step) (env : Bridge)
      (env_settings : ℕ) (reset_actions : List Step)
  | filesystem (reference_answer : List Step) (env : Bridge)
      (env_settings : ℕ) (reset_actions : List Step)
deriving Repr

structure EvaluatorComb where
  evaluators : List EvaluatorObj
deriving Repr

/-- `bridges[key]`: dict access raising `KeyError` when absent. -/
def bridgeGet (bridges : List (String × Bridge)) (k : String) :
    Except String Bridge :=
  match (bridges.find? (fun p => p.1 == k)).map (·.2) with
  | some b => .ok b
  | none => .error ("KeyError: " ++ k)

/-- The `match eval_type` dispatch of `evaluator_router`: known types append
a constructed evaluator (in declaration order), everything else raises
`ValueError(f"eval_type {eval_type} is not supported")`. -/
def routerGo (bridges : List (String × Bridge)) (reset_actions : List Step) :
    List EvalDecl → Except String (List EvaluatorObj)
  | [] => .ok []
  | e :: rest =>
      if e.eval_type == "google_calendar" then
        match bridgeGet bridges "google_calendar" with
        | .error msg => .error msg
        | .ok b =>
            match routerGo bridges reset_actions rest with
            | .error msg => .error msg
            | .ok evs =>
                .ok (.googleCalendar e.reference_answers b
                      (get_env_settings b) reset_actions :: evs)
      else if e.eval_type == "filesystem" then
        match bridgeGet bridges "filesystem" with
        | .error msg => .error msg
        | .ok b =>
            match routerGo bridges reset_actions rest with
            | .error msg => .error msg
            | .ok evs =>
                .ok (.filesystem e.reference_answers b
                      (get_env_settings b) reset_actions :: evs)
      else .error ("eval_type " ++ e.eval_type ++ " is not supported")

/-- `evaluator_router`: build one evaluator per declared evaluation step and
wrap them in an `EvaluatorComb`; any unknown `eval_type` or missing bridge
raises before any comb is produced. -/
def evaluator_router (task_configs : TaskConfig)
    (bridges : List (String × Bridge)) : Except String EvaluatorComb :=
  (routerGo bridges task_configs.reset_actions task_configs.evals).map
    EvaluatorComb.mk

/-- The fixed registry of known `eval_type` values. -/
def registry : List String := ["google_calendar", "filesystem"]

def defaultBridge : Bridge := ⟨[], 0, 0⟩

/-- Total bridge access, agreeing with `bridgeGet` whenever the key is
present; used to state what the router constructs. -/
def bridgeGetD (bridges : List (String × Bridge)) (k : String) : Bridge :=
  ((bridges.find? (fun p => p.1 == k)).map (·.2)).getD defaultBridge

/-- The evaluator the router constructs for one declared step (total
description, meaningful under the hypothesis that the needed bridges are
present). -/
def mkEvaluator (bridges : List (String × Bridge)) (reset_actions : List Step)
    (e : EvalDecl) : EvaluatorObj :=
  if e.eval_type == "google_calendar" then
    .googleCalendar e.reference_answers (bridgeGetD bridges "google_calendar")
      (get_env_settings (bridgeGetD bridges "google_calendar")) reset_actions
  else
    .filesystem e.reference_answers (bridgeGetD bridges "filesystem")
      (get_env_settings (bridgeGetD bridges "filesystem")) reset_actions

/-- Modelled from the spec: the call operators of the concrete desktop_env
evaluator classes (`GoogleCalendarEvaluator.__call__` and the desktop_env
`FilesystemEvaluator.__call__`) are not among the sources — only the
abstract `Evaluator.__call__` (which raises `NotImplementedError`) is.
Per spec §4.2, the filesystem evaluator executes its scripted steps and
assertion checks against the connector's filesystem state — exactly
`execute` of the in-repository playground copy — and the match-based
calendar evaluator reports a score determined by the remote calendar state,
carried here as `Bridge.gcalScore`. -/
def callEvaluator : EvaluatorObj → ℚ
  | .filesystem reference_answer env _ _ => execute reference_answer env.fs
  | .googleCalendar _ env _ _ => env.gcalScore

/-- `EvaluatorComb.__call__` as instantiated by the router-built evaluators
(the same loop as `combCall`, specialized to `EvaluatorObj`). -/
def combScore : List EvaluatorObj → ℚ → ℚ
  | [], score => score
  | e :: rest, score => combScore rest (score * callEvaluator e)

def EvaluatorComb.call (c : EvaluatorComb) : ℚ := combScore c.evaluators 1

/-- The whole task-config collection: `{tasks: [...], score_weight: w}`. -/
structure TaskConfigs where
  tasks : List TaskConfig
  score_weight : ℚ
deriving Repr

/-- The accumulation loop of `eval_tasks`, threading
`(total_score, gained_score)`. -/
def evalTasksGo (bridges : List (String × Bridge)) :
    List TaskConfig → ℚ → ℚ → Except String (ℚ × ℚ)
  | [], total, gained => .ok (total, gained)
  | t :: rest, total, gained =>
      match evaluator_router t bridges with
      | .error msg => .error msg
      | .ok comb =>
          evalTasksGo bridges rest (total + t.score)
            (gained + comb.call * t.score)

/-- `eval_tasks`: weighted average of per-task comb scores, scaled by the
top-level `score_weight`; dividing by a zero total raises
`ZeroDivisionError`. -/
def eval_tasks (task_configs : TaskConfigs)
    (bridges : List (String × Bridge)) : Except String ℚ :=
  match evalTasksGo bridges task_configs.tasks 0 0 with
  | .error msg => .error msg
  | .ok r =>
      if r.1 = 0 then .error "ZeroDivisionError"
      else .ok ((r.2 / r.1) * task_configs.score_weight)

/-- Specification-side per-task score: the product of the constructed
evaluators' individual scores. -/
def specTaskScore (bridges : List (String × Bridge)) (t : TaskConfig) : ℚ :=
  (t.evals.map (fun e => callEvaluator (mkEvaluator bridges t.reset_actions e))).prod

theorem notMem_registry_beq (s : String) (h : s ∉ registry) :
    (s == "google_calendar") = false ∧ (s == "filesystem") = false := by
  constructor <;>
    · rw [beq_eq_false_iff_ne]
      intro hs
      exact h (by rw [hs]; simp [registry])

theorem routerGo_error_of_unknown (bridges : List (String × Bridge))
    (ra : List Step) (evals : List EvalDecl)
    (h : ∃ e ∈ evals, e.eval_type ∉ registry) :
    ∃ msg, routerGo bridges ra evals = Except.error msg := by
  induction evals with
  | nil => obtain ⟨e, he, _⟩ := h; cases he
  | cons e0 rest ih =>
      by_cases hu : e0.eval_type ∉ registry
      · obtain ⟨h1, h2⟩ := notMem_registry_beq e0.eval_type hu
        rw [routerGo, h1, h2]
        simp only [Bool.false_eq_true, if_false]
        exact ⟨_, rfl⟩
      · have hrest : ∃ e ∈ rest, e.eval_type ∉ registry := by
          obtain ⟨e, he, hen⟩ := h
          rcases List.mem_cons.mp he with rfl | hm
          · exact absurd hen hu
          · exact ⟨e, hm, hen⟩
        obtain ⟨msg, hmsg⟩ := ih hrest
        rw [routerGo]
        rcases (by simpa [registry] using (not_not.mp hu) : e0.eval_type = "google_calendar" ∨ e0.eval_type = "filesystem") with hg | hf
        · rw [hg]
          simp only [beq_self_eq_true, if_pos]
          cases bridgeGet bridges "google_calendar" with
          | error m => exact ⟨m, rfl⟩
          | ok b => rw [hmsg]; exact ⟨msg, rfl⟩
        · rw [hf]
          simp only [String.reduceBEq, Bool.false_eq_true, if_false,
            beq_self_eq_true, if_pos]
          cases bridgeGet bridges "filesystem" with
          | error m => exact ⟨m, rfl⟩
          | ok b => rw [hmsg]; exact ⟨msg, rfl⟩

theorem bridgeGetD_eq (bridges : List (String × Bridge)) (k : String)
    (b : Bridge) (h : bridgeGet bridges k = .ok b) :
    bridgeGetD bridges k = b := by
  rw [bridgeGet] at h
  rw [bridgeGetD]
  cases h2 : (bridges.find? (fun p => p.1 == k)).map (·.2) with
  | none => rw [h2] at h; cases h
  | some b' => rw [h2] at h; injection h with h

theorem routerGo_ok (bridges : List (String × Bridge)) (ra : List Step)
    (evals : List EvalDecl) (bg bf : Bridge)
    (hg : bridgeGet bridges "google_calendar" = .ok bg)
    (hf : bridgeGet bridges "filesystem" = .ok bf)
    (h : ∀ e ∈ evals, e.eval_type ∈ registry) :
    routerGo bridges ra evals = .ok (evals.map (mkEvaluator bridges ra)) := by
  induction evals with
  | nil => rfl
  | cons e0 rest ih =>
      have hrest := ih (fun e he => h e (List.mem_cons_of_mem e0 he))
      rcases (by simpa [registry] using h e0 (List.mem_cons_self e0 rest) :
          e0.eval_type = "google_calendar" ∨ e0.eval_type = "filesystem") with h1 | h1
      · rw [routerGo, List.map_cons, mkEvaluator, h1]
        simp only [beq_self_eq_true, if_pos, hg, hrest,
          bridgeGetD_eq bridges "google_calendar" bg hg]
      · rw [routerGo, List.map_cons, mkEvaluator, h1]
        simp only [String.reduceBEq, Bool.false_eq_true, if_false,
          beq_self_eq_true, if_pos, hf, hrest,
          bridgeGetD_eq bridges "filesystem" bf hf]

/-- Claim C5: `evaluator_router` raises for any task configuration containing
an evaluation step whose `eval_type` is outside the fixed registry
{"google_calendar", "filesystem"}, producing no `EvaluatorComb`; and when all
steps are registered (and the bridges are present) it returns an
`EvaluatorComb` holding one constructed evaluator per declared step, in
declaration order. -/
theorem evaluatorRouter_registry (cfg : TaskConfig)
    (bridges : List (String × Bridge)) :
    ((∃ e ∈ cfg.evals, e.eval_type ∉ registry) →
        ∃ msg, evaluator_router cfg bridges = Except.error msg)
    ∧ (∀ bg bf, bridgeGet bridges "google_calendar" = .ok bg →
        bridgeGet bridges "filesystem" = .ok bf →
        (∀ e ∈ cfg.evals, e.eval_type ∈ registry) →
        evaluator_router cfg bridges
          = .ok ⟨cfg.evals.map (mkEvaluator bridges cfg.reset_actions)⟩) := by
  constructor
  · intro h
    obtain ⟨msg, hmsg⟩ :=
      routerGo_error_of_unknown bridges cfg.reset_actions cfg.evals h
    exact ⟨msg, by rw [evaluator_router, hmsg]; rfl⟩
  · intro bg bf hg hf h
    rw [evaluator_router, routerGo_ok bridges cfg.reset_actions cfg.evals bg bf hg hf h]
    rfl

/-- Concrete bridges with both registered connectors present. -/
def exBridges : List (String × Bridge) :=
  [("google_calendar", ⟨[], 1, 1⟩), ("filesystem", ⟨fsA, 2, 0⟩)]

/-- A task config declaring an eval step of an unregistered type
(`"string_match"` appears only commented out in the router). -/
def badCfg : TaskConfig := { evals := [⟨"string_match", []⟩], score := 1 }

/-- A task config whose steps are all registered. -/
def goodCfg : TaskConfig :=
  { evals := [⟨"filesystem", stepsExist⟩, ⟨"google_calendar", []⟩], score := 1 }

theorem evaluatorRouter_registry_witness :
    (∃ msg, evaluator_router badCfg exBridges = Except.error msg)
    ∧ evaluator_router goodCfg exBridges
        = .ok ⟨goodCfg.evals.map (mkEvaluator exBridges goodCfg.reset_actions)⟩ := by
  constructor
  · exact (evaluatorRouter_registry badCfg exBridges).1
      ⟨⟨"string_match", []⟩, by simp [badCfg], by decide⟩
  · exact (evaluatorRouter_registry goodCfg exBridges).2 ⟨[], 1, 1⟩ ⟨fsA, 2, 0⟩
      rfl rfl (by decide)

theorem combScore_eq (l : List EvaluatorObj) (s : ℚ) :
    combScore l s = s * (l.map callEvaluator).prod := by
  induction l generalizing s with
  | nil => simp [combScore]
  | cons e rest ih =>
      rw [combScore, ih, List.map_cons, List.prod_cons]
      ring

theorem evalTasksGo_eq (bridges : List (String × Bridge)) (bg bf : Bridge)
    (hg : bridgeGet bridges "google_calendar" = .ok bg)
    (hf : bridgeGet bridges "filesystem" = .ok bf)
    (tasks : List TaskConfig)
    (hk : ∀ t ∈ tasks, ∀ e ∈ t.evals, e.eval_type ∈ registry)
    (total gained : ℚ) :
    evalTasksGo bridges tasks total gained
      = .ok (total + (tasks.map (·.score)).sum,
             gained + (tasks.map (fun t => specTaskScore bridges t * t.score)).sum) := by
  induction tasks generalizing total gained with
  | nil => simp [evalTasksGo]
  | cons t rest ih =>
      have hr : evaluator_router t bridges
          = .ok ⟨t.evals.map (mkEvaluator bridges t.reset_actions)⟩ := by
        rw [evaluator_router,
          routerGo_ok bridges t.reset_actions t.evals bg bf hg hf
            (hk t (List.mem_cons_self t rest))]
        rfl
      have hcall :
          (EvaluatorComb.mk (t.evals.map (mkEvaluator bridges t.reset_actions))).call
            = specTaskScore bridges t := by
        rw [EvaluatorComb.call, combScore_eq, one_mul, specTaskScore,
          List.map_map]
        rfl
      rw [evalTasksGo, hr]
      simp only [hcall]
      rw [ih (fun t' ht' => hk t' (List.mem_cons_of_mem t ht'))]
      simp only [List.map_cons, List.sum_cons]
      rw [Except.ok.injEq, Prod.mk.injEq]
      constructor <;> ring

/-- Modelled from the spec: the example task collection
`desktop_env/eval/examples/filesystem.json` consumed by `test_filesystem` is
not among the sources.  Per the spec's end-to-end scenario it declares
filesystem tasks carrying three checks in total, with per-task weights 1 and
2 and a top-level `score_weight` of 1, such that the weighted scores over
the three filesystem states come out as 1.0, (2+0)/(1+2), and 0.0: the
file-scoped checks (weight 1) fail once `tmp/test.txt` is deleted and the
folder-scoped check (weight 2) fails once `tmp` itself is deleted. -/
def fileChecks : List Step :=
  [[("exists", [("tmp/test.txt", .bool true)]),
    ("content_check", [("tmp/test.txt", .str "Hello World!")])]]

def folderChecks : List Step :=
  [[("type_check", [("tmp", .str "folder")])]]

def exampleTaskConfigs : TaskConfigs :=
  { tasks :=
      [ { evals := [⟨"filesystem", fileChecks⟩], score := 1 },
        { evals := [⟨"filesystem", folderChecks⟩], score := 2 } ],
    score_weight := 1 }

/-- `tmp` (mode 775) containing `tmp/test.txt` (mode 644, "Hello World!"),
as prepared by the test. -/
def fsScenario1 : FS :=
  [("tmp", .dir ⟨509, 0, 0, 0, "user", "user"⟩),
   ("tmp/test.txt", .file "Hello World!" ⟨420, 0, 0, 12, "user", "user"⟩)]

/-- After `os.remove("tmp/test.txt")`. -/
def fsScenario2 : FS := [("tmp", .dir ⟨509, 0, 0, 0, "user", "user"⟩)]

/-- After `os.rmdir("tmp")`. -/
def fsScenario3 : FS := []

def bridgesFor (fs : FS) : List (String × Bridge) :=
  [("google_calendar", defaultBridge), ("filesystem", ⟨fs, 0, 0⟩)]

theorem evalTasks_formula (cfgs : TaskConfigs)
    (bridges : List (String × Bridge)) (bg bf : Bridge)
    (hg : bridgeGet bridges "google_calendar" = .ok bg)
    (hf : bridgeGet bridges "filesystem" = .ok bf)
    (hk : ∀ t ∈ cfgs.tasks, ∀ e ∈ t.evals, e.eval_type ∈ registry)
    (hnz : (cfgs.tasks.map (·.score)).sum ≠ 0) :
    eval_tasks cfgs bridges
      = .ok (((cfgs.tasks.map (fun t => specTaskScore bridges t * t.score)).sum
          / (cfgs.tasks.map (·.score)).sum) * cfgs.score_weight) := by
  rw [eval_tasks, evalTasksGo_eq bridges bg bf hg hf cfgs.tasks hk 0 0]
  simp only [zero_add]
  rw [if_neg hnz]

theorem specTaskScore_fsTask (fs : FS) (w : ℚ) (checks : List Step) :
    specTaskScore (bridgesFor fs) ⟨[⟨"filesystem", checks⟩], [], w⟩
      = execute checks fs := by
  show ([callEvaluator
      (mkEvaluator (bridgesFor fs) [] ⟨"filesystem", checks⟩)]).prod = _
  rw [List.prod_singleton]
  rfl

/-- Claim C3: `eval_tasks` returns the sum of per-task scores weighted by the
per-task `score` fields, divided by the total weight, scaled by the top-level
`score_weight`; and on the three-check filesystem scenario it yields 1.0 with
everything in place, (2+0)/(1+2) after `tmp/test.txt` is deleted, and 0.0
after `tmp` itself is deleted. -/
theorem evalTasks_weighted_scenario :
    (∀ (cfgs : TaskConfigs) (bridges : List (String × Bridge)) (bg bf : Bridge),
        bridgeGet bridges "google_calendar" = .ok bg →
        bridgeGet bridges "filesystem" = .ok bf →
        (∀ t ∈ cfgs.tasks, ∀ e ∈ t.evals, e.eval_type ∈ registry) →
        (cfgs.tasks.map (·.score)).sum ≠ 0 →
        eval_tasks cfgs bridges
          = .ok (((cfgs.tasks.map (fun t => specTaskScore bridges t * t.score)).sum
              / (cfgs.tasks.map (·.score)).sum) * cfgs.score_weight))
    ∧ eval_tasks exampleTaskConfigs (bridgesFor fsScenario1) = .ok 1
    ∧ eval_tasks exampleTaskConfigs (bridgesFor fsScenario2)
        = .ok ((2 + 0) / (1 + 2))
    ∧ eval_tasks exampleTaskConfigs (bridgesFor fsScenario3) = .ok 0 := by
  have hex1 : execute fileChecks fsScenario1 = 1 := by
    rw [execute_eq_prodInd fileChecks fsScenario1 [true, true] rfl]
    norm_num [prodInd, boolToQ]
  have hex2 : execute folderChecks fsScenario1 = 1 := by
    rw [execute_eq_prodInd folderChecks fsScenario1 [true] rfl]
    norm_num [prodInd, boolToQ]
  have hex3 : execute fileChecks fsScenario2 = 0 := by
    rw [execute_eq_prodInd fileChecks fsScenario2 [false, false] rfl]
    norm_num [prodInd, boolToQ]
  have hex4 : execute folderChecks fsScenario2 = 1 := by
    rw [execute_eq_prodInd folderChecks fsScenario2 [true] rfl]
    norm_num [prodInd, boolToQ]
  have hex5 : execute fileChecks fsScenario3 = 0 := by
    rw [execute_eq_prodInd fileChecks fsScenario3 [false, false] rfl]
    norm_num [prodInd, boolToQ]
  have hex6 : execute folderChecks fsScenario3 = 0 := by
    rw [execute_eq_prodInd folderChecks fsScenario3 [false] rfl]
    norm_num [prodInd, boolToQ]
  refine ⟨fun cfgs bridges bg bf hg hf hk hnz =>
      evalTasks_formula cfgs bridges bg bf hg hf hk hnz, ?_, ?_, ?_⟩
  · rw [evalTasks_formula exampleTaskConfigs (bridgesFor fsScenario1)
      defaultBridge ⟨fsScenario1, 0, 0⟩ rfl rfl (by decide)
      (by norm_num [exampleTaskConfigs])]
    simp only [exampleTaskConfigs, List.map_cons, List.map_nil, List.sum_cons,
      List.sum_nil, specTaskScore_fsTask, hex1, hex2]
    norm_num
  · rw [evalTasks_formula exampleTaskConfigs (bridgesFor fsScenario2)
      defaultBridge ⟨fsScenario2, 0, 0⟩ rfl rfl (by decide)
      (by norm_num [exampleTaskConfigs])]
    simp only [exampleTaskConfigs, List.map_cons, List.map_nil, List.sum_cons,
      List.sum_nil, specTaskScore_fsTask, hex3, hex4]
    norm_num
  · rw [evalTasks_formula exampleTaskConfigs (bridgesFor fsScenario3)
      defaultBridge ⟨fsScenario3, 0, 0⟩ rfl rfl (by decide)
      (by norm_num [exampleTaskConfigs])]
    simp only [exampleTaskConfigs, List.map_cons, List.map_nil, List.sum_cons,
      List.sum_nil, specTaskScore_fsTask, hex5, hex6]
    norm_num

theorem evalTasks_weighted_scenario_witness :
    eval_tasks exampleTaskConfigs (bridgesFor fsScenario2)
      = .ok (((exampleTaskConfigs.tasks.map
            (fun t => specTaskScore (bridgesFor fsScenario2) t * t.score)).sum
          / (exampleTaskConfigs.tasks.map (·.score)).sum)
          * exampleTaskConfigs.score_weight) :=
  evalTasks_weighted_scenario.1 exampleTaskConfigs (bridgesFor fsScenario2)
    defaultBridge ⟨fsScenario2, 0, 0⟩ rfl rfl (by decide)
    (by norm_num [exampleTaskConfigs])

/-! ## Google Calendar event matching
(desktop_env/eval/connectors/gspace/gcalendar.py)

ISO-8601 datetime strings are modelled by their parsed denotation: the
displayed ("naive") time in minutes together with an optional UTC offset in
minutes (`none` for a naive datetime).  `datetime.fromisoformat` is the
identity on this denotation, and two denotations serialize (`isoformat`) to
the same string iff they are structurally equal. -/

structure Timestamp where
  naive : ℤ
  offset : Option ℤ
deriving DecidableEq, Repr

/-- `datetime.astimezone()` (no argument): convert to the process-local
timezone, whose UTC offset is `L` minutes; a naive datetime is interpreted
as local time. -/
def astimezone (L : ℤ) (t : Timestamp) : Timestamp :=
  ⟨t.naive - t.offset.getD L + L, some L⟩

/-- `GoogleCalendarService.match_time`: parse both strings, convert each to
the local timezone, serialize, and compare the serializations. -/
def match_time (L : ℤ) (ref pred : Timestamp) : Bool :=
  astimezone L ref == astimezone L pred

/-- A value inside a `start`/`end` dict: `"dateTime"` maps to a parsed
timestamp when it is a valid ISO string (`TVal.ts`), and any other string
(e.g. the `"timeZone"` entry, or an unparseable datetime) is `TVal.s`. -/
inductive TVal where
  | ts (t : Timestamp)
  | s (str : String)
deriving DecidableEq, Repr

/-- A Python value stored in an event dict: `None`, a string, a nested
`start`/`end`-style dict, or an opaque other value (identified by a tag for
the purposes of `==`). -/
inductive PVal where
  | none
  | str (s : String)
  | timeDict (entries : List (String × TVal))
  | other (tag : String)
deriving DecidableEq, Repr

/-- An event as a JSON object: an association list of fields. -/
abbrev Event := List (String × PVal)

/-- `pred.get(key, None)`. -/
def pyGet (d : Event) (k : String) : PVal :=
  ((d.find? (fun p => p.1 == k)).map (·.2)).getD .none

/-- Naive substring containment, for Python's `in` on strings. -/
def strContainsSub (s pat : String) : Bool :=
  (List.range (s.length + 1)).any (fun i => pat.data.isPrefixOf (s.data.drop i))

/-- Python `key in value`: key membership for dicts, substring containment
for strings, `TypeError` for `None` (and other non-iterables). -/
def pyIn (key : String) : PVal → Except Unit Bool
  | .timeDict entries => .ok (entries.any (fun e => e.1 == key))
  | .str s => .ok (strContainsSub s key)
  | _ => .error ()

/-- Python `value[key]`: dict lookup (`KeyError` when absent); indexing a
string with a string key raises `TypeError`, as does `None`. -/
def getItemTD (v : PVal) (key : String) : Except Unit TVal :=
  match v with
  | .timeDict entries =>
      match (entries.find? (fun e => e.1 == key)).map (·.2) with
      | some t => .ok t
      | Option.none => .error ()
  | _ => .error ()

/-- `match_time` applied to the two extracted `"dateTime"` values:
`datetime.fromisoformat` raises on anything that is not a valid ISO
string. -/
def match_time_vals (L : ℤ) : TVal → TVal → Except Unit Bool
  | .ts r, .ts p => .ok (match_time L r p)
  | _, _ => .error ()

/-- `GoogleCalendarService.event_match_left`: iterate over the reference
event's fields; `summary`/`description`/`location` must compare `==` equal
to the candidate's value (`None` when absent), `start`/`end` must both carry
a `"dateTime"` entry whose timestamps match after timezone normalization,
and every other reference key is skipped. -/
def event_match_left (L : ℤ) : Event → Event → Except Unit Bool
  | [], _ => .ok true
  | (k, item) :: rest, pred =>
      if k == "summary" || k == "description" || k == "location" then
        if item != pyGet pred k then .ok false
        else event_match_left L rest pred
      else if k == "start" || k == "end" then
        match pyIn "dateTime" item with
        | .error e => .error e
        | .ok false => .ok false
        | .ok true =>
            match pyIn "dateTime" (pyGet pred k) with
            | .error e => .error e
            | .ok false => .ok false
            | .ok true =>
                match getItemTD item "dateTime" with
                | .error e => .error e
                | .ok rv =>
                    match getItemTD (pyGet pred k) "dateTime" with
                    | .error e => .error e
                    | .ok pv =>
                        match match_time_vals L rv pv with
                        | .error e => .error e
                        | .ok false => .ok false
                        | .ok true => event_match_left L rest pred
      else event_match_left L rest pred

/-- The per-field condition the matcher enforces on the three plain string
fields. -/
def strFieldCond (pred : Event) (p : String × PVal) : Prop :=
  pyGet pred p.1 = p.2

/-- The per-field condition the matcher enforces on `start`/`end`: both
sides carry a parseable `"dateTime"` and the timestamps agree after
timezone normalization. -/
def timeFieldCond (L : ℤ) (pred : Event) (p : String × PVal) : Prop :=
  ∃ rt pt, getItemTD p.2 "dateTime" = .ok (.ts rt)
    ∧ getItemTD (pyGet pred p.1) "dateTime" = .ok (.ts pt)
    ∧ match_time L rt pt = true

theorem eml_cons_strKey (L : ℤ) (k : String) (item : PVal) (rest pred : Event)
    (h : (k == "summary" || k == "description" || k == "location") = true) :
    event_match_left L ((k, item) :: rest) pred = .ok true
      ↔ (pyGet pred k = item ∧ event_match_left L rest pred = .ok true) := by
  rw [event_match_left, if_pos h]
  by_cases he : item = pyGet pred k
  · rw [if_neg (by simp [bne_iff_ne, he])]
    exact ⟨fun hr => ⟨he.symm, hr⟩, fun hr => hr.2⟩
  · rw [if_pos (by simp [bne_iff_ne]; exact he)]
    constructor
    · intro hcontra; exact absurd hcontra (by simp)
    · rintro ⟨hg, _⟩; exact absurd hg.symm he

theorem getItemTD_ok_pyIn (v : PVal) (key : String) (t : TVal)
    (h : getItemTD v key = .ok t) : pyIn key v = .ok true := by
  cases v with
  | timeDict entries =>
      rw [getItemTD] at h
      cases h2 : (entries.find? (fun e => e.1 == key)).map (·.2) with
      | none => rw [h2] at h; cases h
      | some t' =>
          rw [pyIn]
          have : (entries.find? (fun e => e.1 == key)).isSome := by
            cases h3 : entries.find? (fun e => e.1 == key) with
            | none => rw [h3] at h2; cases h2
            | some e => rfl
          obtain ⟨e, hmem, hkey⟩ := List.find?_isSome.mp this
          have : entries.any (fun e => e.1 == key) = true :=
            List.any_eq_true.mpr ⟨e, hmem, hkey⟩
          rw [this]
  | none => simp [getItemTD] at h
  | str s => simp [getItemTD] at h
  | other tag => simp [getItemTD] at h

theorem eml_cons_timeKey (L : ℤ) (k : String) (item : PVal) (rest pred : Event)
    (h1 : (k == "summary" || k == "description" || k == "location") = false)
    (h2 : (k == "start" || k == "end") = true) :
    event_match_left L ((k, item) :: rest) pred = .ok true
      ↔ (timeFieldCond L pred (k, item)
          ∧ event_match_left L rest pred = .ok true) := by
  rw [event_match_left, if_neg (by simp [h1]), if_pos h2]
  cases hin1 : pyIn "dateTime" item with
  | error e =>
      simp only [hin1]
      constructor
      · intro h; cases h
      · rintro ⟨⟨rt, pt, hg1, _, _⟩, _⟩
        rw [getItemTD_ok_pyIn item "dateTime" (.ts rt) hg1] at hin1
        cases hin1
  | ok b1 =>
    cases b1 with
    | false =>
        simp only [hin1]
        constructor
        · intro h; cases h
        · rintro ⟨⟨rt, pt, hg1, _, _⟩, _⟩
          rw [getItemTD_ok_pyIn item "dateTime" (.ts rt) hg1] at hin1
          cases hin1
    | true =>
      simp only [hin1]
      cases hin2 : pyIn "dateTime" (pyGet pred k) with
      | error e =>
          simp only [hin2]
          constructor
          · intro h; cases h
          · rintro ⟨⟨rt, pt, _, hg2, _⟩, _⟩
            rw [getItemTD_ok_pyIn (pyGet pred k) "dateTime" (.ts pt) hg2] at hin2
            cases hin2
      | ok b2 =>
        cases b2 with
        | false =>
            simp only [hin2]
            constructor
            · intro h; cases h
            · rintro ⟨⟨rt, pt, _, hg2, _⟩, _⟩
              rw [getItemTD_ok_pyIn (pyGet pred k) "dateTime" (.ts pt) hg2] at hin2
              cases hin2
        | true =>
          simp only [hin2]
          cases hg1 : getItemTD item "dateTime" with
          | error e =>
              simp only [hg1]
              constructor
              · intro h; cases h
              · rintro ⟨⟨rt, pt, hg1', _, _⟩, _⟩
                rw [hg1'] at hg1; cases hg1
          | ok rv =>
            simp only [hg1]
            cases hg2 : getItemTD (pyGet pred k) "dateTime" with
            | error e =>
                simp only [hg2]
                constructor
                · intro h; cases h
                · rintro ⟨⟨rt, pt, _, hg2', _⟩, _⟩
                  rw [hg2'] at hg2; cases hg2
            | ok pv =>
              simp only [hg2]
              cases hm : match_time_vals L rv pv with
              | error e =>
                  simp only [hm]
                  constructor
                  · intro h; cases h
                  · rintro ⟨⟨rt, pt, hg1', hg2', _⟩, _⟩
                    rw [hg1'] at hg1
                    injection hg1 with hg1
                    rw [hg2'] at hg2
                    injection hg2 with hg2
                    rw [← hg1, ← hg2, match_time_vals] at hm
                    cases hm
              | ok b3 =>
                cases b3 with
                | false =>
                    simp only [hm]
                    constructor
                    · intro h; cases h
                    · rintro ⟨⟨rt, pt, hg1', hg2', hmt⟩, _⟩
                      rw [hg1'] at hg1
                      injection hg1 with hg1
                      rw [hg2'] at hg2
                      injection hg2 with hg2
                      rw [← hg1, ← hg2, match_time_vals] at hm
                      injection hm with hm
                      rw [hmt] at hm
                      cases hm
                | true =>
                    simp only [hm]
                    constructor
                    · intro hr
                      cases rv with
                      | s str => cases pv <;> simp [match_time_vals] at hm
                      | ts rt =>
                        cases pv with
                        | s str => simp [match_time_vals] at hm
                        | ts pt =>
                            rw [show match_time_vals L (.ts rt) (.ts pt)
                                = .ok (match_time L rt pt) from rfl] at hm
                            injection hm with hm
                            exact ⟨⟨rt, pt, hg1, hg2, hm⟩, hr⟩
                    · rintro ⟨_, hr⟩
                      exact hr

theorem eml_cons_otherKey (L : ℤ) (k : String) (item : PVal)
    (rest pred : Event)
    (h1 : (k == "summary" || k == "description" || k == "location") = false)
    (h2 : (k == "start" || k == "end") = false) :
    event_match_left L ((k, item) :: rest) pred
      = event_match_left L rest pred := by
  rw [event_match_left, if_neg (by simp [h1]), if_neg (by simp [h2])]

/-- Claim C4: `event_match_left` declares a candidate matching a reference
iff every reference field among `summary`, `description`, `location` is
`==`-equal in the candidate, and every reference `start`/`end` carries a
`dateTime` whose timestamp equals the candidate's after timezone
normalization; in particular two dateTimes denoting the same instant in
different UTC offsets — `"2024-01-01T10:00:00+00:00"` (naive 600 min,
offset 0) and `"2024-01-01T05:00:00-05:00"` (naive 300 min, offset −300) —
match under `match_time` in every local timezone. -/
theorem calendar_event_match_iff :
    (∀ (L : ℤ) (ref pred : Event),
        event_match_left L ref pred = .ok true
          ↔ (∀ p ∈ ref,
                (p.1 = "summary" ∨ p.1 = "description" ∨ p.1 = "location") →
                strFieldCond pred p)
            ∧ (∀ p ∈ ref, (p.1 = "start" ∨ p.1 = "end") →
                timeFieldCond L pred p))
    ∧ (∀ L : ℤ,
        match_time L ⟨600, some 0⟩ ⟨300, some (-300)⟩ = true) := by
  constructor
  · intro L ref pred
    induction ref with
    | nil => simp [event_match_left]
    | cons p rest ih =>
        obtain ⟨k, item⟩ := p
        by_cases hstr : (k == "summary" || k == "description" || k == "location") = true
        · rw [eml_cons_strKey L k item rest pred hstr, ih]
          have hk : k = "summary" ∨ k = "description" ∨ k = "location" := by
            simpa [or_assoc] using hstr
          have hkne : ¬(k = "start" ∨ k = "end") := by
            rcases hk with rfl | rfl | rfl <;> decide
          simp only [List.forall_mem_cons]
          constructor
          · rintro ⟨hg, h1', h2'⟩
            exact ⟨⟨fun _ => hg, h1'⟩, fun hc => absurd hc hkne, h2'⟩
          · rintro ⟨⟨hh1, h1'⟩, _, h2'⟩
            exact ⟨hh1 hk, h1', h2'⟩
        · have hstr0 : (k == "summary" || k == "description" || k == "location") = false := by
            simpa using hstr
          by_cases htime : (k == "start" || k == "end") = true
          · rw [eml_cons_timeKey L k item rest pred hstr0 htime, ih]
            have hk : k = "start" ∨ k = "end" := by simpa using htime
            have hkne : ¬(k = "summary" ∨ k = "description" ∨ k = "location") := by
              rcases hk with rfl | rfl <;> decide
            simp only [List.forall_mem_cons]
            constructor
            · rintro ⟨ht, h1', h2'⟩
              exact ⟨⟨fun hc => absurd hc hkne, h1'⟩, fun _ => ht, h2'⟩
            · rintro ⟨⟨_, h1'⟩, hh2, h2'⟩
              exact ⟨hh2 hk, h1', h2'⟩
          · have ht0 : (k == "start" || k == "end") = false := by simpa using htime
            rw [eml_cons_otherKey L k item rest pred hstr0 ht0, ih]
            have hkne1 : ¬(k = "summary" ∨ k = "description" ∨ k = "location") := by
              intro hc
              rcases hc with rfl | rfl | rfl <;> simp at hstr0
            have hkne2 : ¬(k = "start" ∨ k = "end") := by
              intro hc
              rcases hc with rfl | rfl <;> simp at ht0
            simp only [List.forall_mem_cons]
            constructor
            · rintro ⟨h1', h2'⟩
              exact ⟨⟨fun hc => absurd hc hkne1, h1'⟩, fun hc => absurd hc hkne2, h2'⟩
            · rintro ⟨⟨_, h1'⟩, _, h2'⟩
              exact ⟨h1', h2'⟩
  · intro L
    simp only [match_time, astimezone, Option.getD_some, beq_iff_eq,
      Timestamp.mk.injEq]
    exact ⟨by ring, trivial⟩

/-- The only keys `event_match_left` inspects. -/
def relevantKey (k : String) : Bool :=
  k == "summary" || k == "description" || k == "location"
    || k == "start" || k == "end"

theorem eml_cons_congr (L : ℤ) (k : String) (item : PVal)
    (rest rest' pred : Event)
    (ih : event_match_left L rest pred = event_match_left L rest' pred) :
    event_match_left L ((k, item) :: rest) pred
      = event_match_left L ((k, item) :: rest') pred := by
  rw [event_match_left]
  rw [show event_match_left L ((k, item) :: rest') pred
      = (if k == "summary" || k == "description" || k == "location" then
          if item != pyGet pred k then Except.ok false
          else event_match_left L rest' pred
        else if k == "start" || k == "end" then
          match pyIn "dateTime" item with
          | .error e => .error e
          | .ok false => .ok false
          | .ok true =>
              match pyIn "dateTime" (pyGet pred k) with
              | .error e => .error e
              | .ok false => .ok false
              | .ok true =>
                  match getItemTD item "dateTime" with
                  | .error e => .error e
                  | .ok rv =>
                      match getItemTD (pyGet pred k) "dateTime" with
                      | .error e => .error e
                      | .ok pv =>
                          match match_time_vals L rv pv with
                          | .error e => .error e
                          | .ok false => .ok false
                          | .ok true => event_match_left L rest' pred
        else event_match_left L rest' pred) from by rw [event_match_left]]
  by_cases hstr : (k == "summary" || k == "description" || k == "location") = true
  · rw [if_pos hstr, if_pos hstr]
    by_cases hb : (item != pyGet pred k) = true
    · rw [if_pos hb, if_pos hb]
    · rw [if_neg hb, if_neg hb]; exact ih
  · rw [if_neg hstr, if_neg hstr]
    by_cases htime : (k == "start" || k == "end") = true
    · rw [if_pos htime, if_pos htime]
      cases hin1 : pyIn "dateTime" item with
      | error e => simp only [hin1]
      | ok b1 =>
        cases b1 with
        | false => simp only [hin1]
        | true =>
          simp only [hin1]
          cases hin2 : pyIn "dateTime" (pyGet pred k) with
          | error e => simp only [hin2]
          | ok b2 =>
            cases b2 with
            | false => simp only [hin2]
            | true =>
              simp only [hin2]
              cases hg1 : getItemTD item "dateTime" with
              | error e => simp only [hg1]
              | ok rv =>
                simp only [hg1]
                cases hg2 : getItemTD (pyGet pred k) "dateTime" with
                | error e => simp only [hg2]
                | ok pv =>
                  simp only [hg2]
                  cases hm : match_time_vals L rv pv with
                  | error e => simp only [hm]
                  | ok b3 =>
                    cases b3 with
                    | false => simp only [hm]
                    | true => simp only [hm]; exact ih
    · rw [if_neg htime, if_neg htime]; exact ih

theorem eml_filter_eq (L : ℤ) (ref pred : Event) :
    event_match_left L ref pred
      = event_match_left L (ref.filter (fun p => relevantKey p.1)) pred := by
  induction ref with
  | nil => rfl
  | cons p rest ih =>
      obtain ⟨k, item⟩ := p
      by_cases hrel : relevantKey k = true
      · rw [List.filter_cons_of_pos (by simpa using hrel)]
        exact eml_cons_congr L k item rest _ pred ih
      · rw [List.filter_cons_of_neg (by simpa using hrel)]
        have hrel0 : relevantKey k = false := by simpa using hrel
        simp only [relevantKey, Bool.or_eq_false_iff] at hrel0
        rw [eml_cons_otherKey L k item rest pred
          (by simp [hrel0.1.1.1.1, hrel0.1.1.1.2, hrel0.1.1.2])
          (by simp [hrel0.1.2, hrel0.2])]
        exact ih

theorem eml_pred_congr (L : ℤ) (ref pred pred' : Event)
    (h : ∀ k, relevantKey k = true → pyGet pred k = pyGet pred' k) :
    event_match_left L ref pred = event_match_left L ref pred' := by
  induction ref with
  | nil => rfl
  | cons p rest ih =>
      obtain ⟨k, item⟩ := p
      rw [event_match_left, event_match_left]
      by_cases hstr : (k == "summary" || k == "description" || k == "location") = true
      · have hpg : pyGet pred k = pyGet pred' k := by
          apply h k
          simp only [relevantKey, Bool.or_eq_true]
          simp only [Bool.or_eq_true] at hstr
          tauto
        rw [if_pos hstr, if_pos hstr, hpg]
        by_cases hb : (item != pyGet pred' k) = true
        · rw [if_pos hb, if_pos hb]
        · rw [if_neg hb, if_neg hb]; exact ih
      · rw [if_neg hstr, if_neg hstr]
        by_cases htime : (k == "start" || k == "end") = true
        · have hpg : pyGet pred k = pyGet pred' k := by
            apply h k
            simp only [relevantKey, Bool.or_eq_true]
            simp only [Bool.or_eq_true] at htime
            tauto
          rw [if_pos htime, if_pos htime, hpg]
          cases hin1 : pyIn "dateTime" item with
          | error e => simp only [hin1]
          | ok b1 =>
            cases b1 with
            | false => simp only [hin1]
            | true =>
              simp only [hin1]
              cases hin2 : pyIn "dateTime" (pyGet pred' k) with
              | error e => simp only [hin2]
              | ok b2 =>
                cases b2 with
                | false => simp only [hin2]
                | true =>
                  simp only [hin2]
                  cases hg1 : getItemTD item "dateTime" with
                  | error e => simp only [hg1]
                  | ok rv =>
                    simp only [hg1]
                    cases hg2 : getItemTD (pyGet pred' k) "dateTime" with
                    | error e => simp only [hg2]
                    | ok pv =>
                      simp only [hg2]
                      cases hm : match_time_vals L rv pv with
                      | error e => simp only [hm]
                      | ok b3 =>
                        cases b3 with
                        | false => simp only [hm]
                        | true => simp only [hm]; exact ih
        · rw [if_neg htime, if_neg htime]; exact ih

/-- Claim C10: `event_match_left` compares only the reference keys
`summary`, `description`, `location`, `start` and `end`: the reference may
be filtered down to those keys without changing the result, and the
candidate's values at all other keys (e.g. `attendees`, `id`, `organizer`)
may disagree arbitrarily without changing the result. -/
theorem eventMatchLeft_ignores_other_keys :
    (∀ (L : ℤ) (ref pred : Event),
        event_match_left L ref pred
          = event_match_left L (ref.filter (fun p => relevantKey p.1)) pred)
    ∧ (∀ (L : ℤ) (ref pred pred' : Event),
        (∀ k, relevantKey k = true → pyGet pred k = pyGet pred' k) →
        event_match_left L ref pred = event_match_left L ref pred') :=
  ⟨eml_filter_eq, eml_pred_congr⟩

/-- A reference event carrying keys the matcher must ignore. -/
def exRefExtra : Event :=
  [("summary", .str "Standup"), ("attendees", .other "listA"),
   ("id", .str "abc"), ("organizer", .other "alice")]

def exPredX : Event := [("summary", .str "Standup"), ("attendees", .other "listB")]

def exPredY : Event := [("summary", .str "Standup")]

theorem eventMatchLeft_ignores_other_keys_witness :
    event_match_left 0 exRefExtra exPredX
        = event_match_left 0 (exRefExtra.filter (fun p => relevantKey p.1)) exPredX
    ∧ event_match_left 0 exRefExtra exPredX
        = event_match_left 0 exRefExtra exPredY := by
  constructor
  · exact eventMatchLeft_ignores_other_keys.1 0 exRefExtra exPredX
  · apply eventMatchLeft_ignores_other_keys.2 0 exRefExtra exPredX exPredY
    intro k hk
    by_cases h1 : (k == "summary") = true
    · have hke : k = "summary" := by simpa using h1
      subst hke
      rfl
    · have h1' : ("summary" == k) = false := by
        rw [beq_eq_false_iff_ne]
        intro hh
        exact h1 (by simp [hh.symm])
      by_cases h2 : (k == "attendees") = true
      · have hke : k = "attendees" := by simpa using h2
        subst hke
        rw [(by decide : relevantKey "attendees" = false)] at hk
        cases hk
      · have h2' : ("attendees" == k) = false := by
          rw [beq_eq_false_iff_ne]
          intro hh
          exact h2 (by simp [hh.symm])
        simp [pyGet, exPredX, exPredY, List.find?, h1', h2']

/-! ## Paginated listing loops
(desktop_env/eval/connectors/gspace/gcalendar.py)

The remote API is modelled as a function from the page token passed to
`.list(...)` to the returned page (`items` plus `nextPageToken`).  Since the
Python loops have no bound, they are embedded with explicit fuel: a result
of `none` means the loop has not returned within the given number of
iterations. -/

structure Page (α : Type) where
  items : List α
  nextPageToken : Option String
deriving Repr

/-- Python falsiness of `page_token` in `if not page_token: break`: both a
missing token and an empty string end the loop. -/
def tokenFalsy : Option String → Bool
  | Option.none => true
  | some s => s.isEmpty

/-- The fetch-append-follow loop shared by `list_calendars` and
`list_events`: fetch the page for the current token (passing
`pageToken=page_token`), append its items, and continue with
`nextPageToken` until it is falsy. -/
def listLoop {α : Type} (api : Option String → Page α) :
    ℕ → Option String → List α → Option (List α)
  | 0, _, _ => Option.none
  | fuel + 1, tok, acc =>
      let page := api tok
      if tokenFalsy page.nextPageToken then some (acc ++ page.items)
      else listLoop api fuel page.nextPageToken (acc ++ page.items)

/-- `GoogleCalendarService.list_events` (and `list_calendars`, which runs
the identical loop): start with no page token and an empty accumulator. -/
def list_events {α : Type} (api : Option String → Page α) (fuel : ℕ) :
    Option (List α) :=
  listLoop api fuel Option.none []

/-- The loop of `GoogleCalendarService.search_events_by_time_range`: the
body reads `nextPageToken` into `page_token` and loops while it is truthy,
but the `.list(...)` call never passes `pageToken=page_token` — every
iteration fetches the first page again. -/
def searchLoop {α : Type} (api : Option String → Page α) :
    ℕ → List α → Option (List α)
  | 0, _ => Option.none
  | fuel + 1, acc =>
      let page := api Option.none
      if tokenFalsy page.nextPageToken then some (acc ++ page.items)
      else searchLoop api fuel (acc ++ page.items)

def search_events_by_time_range {α : Type} (api : Option String → Page α)
    (fuel : ℕ) : Option (List α) :=
  searchLoop api fuel []

/-- The token chain induced by following `nextPageToken` from the initial
(absent) token. -/
def tokSeq {α : Type} (api : Option String → Page α) : ℕ → Option String
  | 0 => Option.none
  | i + 1 => (api (tokSeq api i)).nextPageToken

/-- The concatenation of the items of pages `j, j+1, ..., j+m` along the
token chain. -/
def pagesFrom {α : Type} (api : Option String → Page α) (j : ℕ) :
    ℕ → List α
  | 0 => (api (tokSeq api j)).items
  | m + 1 => (api (tokSeq api j)).items ++ pagesFrom api (j + 1) m

theorem listLoop_run {α : Type} (api : Option String → Page α) (m : ℕ) :
    ∀ (j fuel : ℕ) (acc : List α),
      (∀ i, 1 ≤ i → i ≤ m → tokenFalsy (tokSeq api (j + i)) = false) →
      tokenFalsy (tokSeq api (j + m + 1)) = true →
      m + 1 ≤ fuel →
      listLoop api fuel (tokSeq api j) acc
        = some (acc ++ pagesFrom api j m) := by
  induction m with
  | zero =>
      intro j fuel acc _ hstop hfuel
      obtain ⟨f, rfl⟩ := Nat.exists_eq_add_of_le hfuel
      rw [show 0 + 1 + f = f + 1 from by omega, listLoop]
      have : tokenFalsy (api (tokSeq api j)).nextPageToken = true := by
        simpa [tokSeq] using hstop
      rw [if_pos this]
      rfl
  | succ m ih =>
      intro j fuel acc hmid hstop hfuel
      obtain ⟨f, rfl⟩ := Nat.exists_eq_add_of_le hfuel
      rw [show m + 1 + 1 + f = m + 1 + f + 1 from by omega, listLoop]
      have hnotf : tokenFalsy (api (tokSeq api j)).nextPageToken = false := by
        have := hmid 1 le_rfl (by omega)
        simpa [tokSeq] using this
      rw [if_neg (by simp [hnotf])]
      have hrek := ih (j + 1) (m + 1 + f) (acc ++ (api (tokSeq api j)).items)
        (fun i h1 h2 => by
          have := hmid (i + 1) (by omega) (by omega)
          rwa [show j + (i + 1) = j + 1 + i by omega] at this)
        (by rwa [show j + 1 + m + 1 = j + (m + 1) + 1 by omega])
        (by omega)
      rw [show tokSeq api (j + 1) = (api (tokSeq api j)).nextPageToken from rfl]
        at hrek
      rw [hrek, pagesFrom]
      simp [List.append_assoc]

/-- The two-page API: the first page (no token) returns items [1, 2] and
next-page token "p2"; the second page returns [3] and no further token. -/
def twoPageApi : Option String → Page ℕ :=
  fun tok =>
    match tok with
    | Option.none => ⟨[1, 2], some "p2"⟩
    | some _ => ⟨[3], Option.none⟩

theorem searchLoop_diverges (fuel : ℕ) (acc : List ℕ) :
    searchLoop twoPageApi fuel acc = Option.none := by
  induction fuel generalizing acc with
  | zero => rfl
  | succ f ih =>
      rw [searchLoop]
      rw [if_neg (by decide)]
      exact ih _

/-- Claim C6 (settled as a code bug): `list_events` (and `list_calendars`,
which runs the same loop) does follow the next-page token and terminates
with the concatenation of all pages, each fetched once, whenever the token
chain is finite; but `search_events_by_time_range` never passes the token
back to the API call, so on a two-page result it refetches the first page
forever and never returns, even though the very same API makes
`list_events` return both pages. -/
theorem pagination_follows_token :
    (∀ (α : Type) (api : Option String → Page α) (n fuel : ℕ),
        (∀ i, 1 ≤ i → i ≤ n → tokenFalsy (tokSeq api i) = false) →
        tokenFalsy (tokSeq api (n + 1)) = true →
        n + 1 ≤ fuel →
        list_events api fuel = some (pagesFrom api 0 n))
    ∧ (∀ fuel : ℕ,
        search_events_by_time_range twoPageApi fuel = Option.none)
    ∧ list_events twoPageApi 2 = some [1, 2, 3] := by
  refine ⟨?_, ?_, ?_⟩
  · intro α api n fuel hmid hstop hfuel
    have := listLoop_run api n 0 fuel [] (fun i h1 h2 => by simpa using hmid i h1 h2)
      (by simpa using hstop) hfuel
    simpa [list_events, tokSeq] using this
  · intro fuel
    exact searchLoop_diverges fuel []
  · rfl

theorem pagination_follows_token_witness :
    list_events twoPageApi 2 = some (pagesFrom twoPageApi 0 1) :=
  pagination_follows_token.1 ℕ twoPageApi 1 2
    (fun i h1 h2 => by
      have : i = 1 := le_antisymm h2 h1
      subst this
      decide)
    (by decide)
    (by omega)

/-! ## Trajectory export / load (agent_studio/utils/json_utils.py)

A JSONL file is modelled as the list of its (already-parsed) line objects;
`json.dumps`/`json.loads` round-trip a well-formed value, so serialization
is the identity on this representation.  `JVal.image` stands for an
in-memory PIL/ndarray image, which `parse_and_save_objects` replaces with a
`file://` reference (the fresh uuid filename is modelled as a deterministic
function of the payload). -/

inductive JVal where
  | null
  | str (s : String)
  | num (q : ℚ)
  | arr (xs : List JVal)
  | obj (kvs : List (String × JVal))
  | image (data : ℕ)

/-- The `file://{uuid}.png` reference produced by `save_image`. -/
def imgRef (data : ℕ) : String := "file://" ++ toString data ++ ".png"

/-- The reference produced for a `data:image...` url string. -/
def imgUrlRef (s : String) : String := "file://" ++ s ++ ".png"

mutual

/-- A dict value under key `k`: images are saved, dicts and lists are
recursed into, and a string under the key `"url"` starting with
`data:image` is decoded and saved. -/
def pasVal (k : String) : JVal → JVal
  | .image d => .str (imgRef d)
  | .obj kvs => .obj (pasObj kvs)
  | .arr xs => .arr (pasArr xs)
  | .str s =>
      if k == "url" && "data:image".isPrefixOf s then .str (imgUrlRef s)
      else .str s
  | .null => .null
  | .num q => .num q

/-- A list element: images are saved, dicts and lists are recursed into;
strings in lists are never url-decoded. -/
def pasItem : JVal → JVal
  | .image d => .str (imgRef d)
  | .obj kvs => .obj (pasObj kvs)
  | .arr xs => .arr (pasArr xs)
  | .str s => .str s
  | .null => .null
  | .num q => .num q

def pasObj : List (String × JVal) → List (String × JVal)
  | [] => []
  | (k, v) :: rest => (k, pasVal k v) :: pasObj rest

def pasArr : List JVal → List JVal
  | [] => []
  | v :: rest => pasItem v :: pasArr rest

end

/-- `parse_and_save_objects`: anything that is not a dict or a list is
returned unchanged. -/
def parse_and_save_objects : JVal → JVal
  | .obj kvs => .obj (pasObj kvs)
  | .arr xs => .arr (pasArr xs)
  | v => v

/-- Modelled from the spec: `TaskResult` (agent_studio/utils/types.py) is
not among the sources; per the spec's result-log format it carries
`task_id, instruction, trajectory, score, feedback, token_count, video`
(video optional).  Pydantic `model_validate` checks the field types and
`model_dump` re-serializes the record. -/
structure TaskResult where
  video : Option String
  task_id : String
  instruction : String
  trajectory : List JVal
  token_count : Option ℚ
  score : ℚ
  feedback : String

def optStrJ : Option String → JVal
  | Option.none => .null
  | some s => .str s

def optNumJ : Option ℚ → JVal
  | Option.none => .null
  | some q => .num q

/-- `TaskResult.model_dump()` followed by `json.dumps`. -/
def dumpTaskResult (r : TaskResult) : JVal :=
  .obj [("video", optStrJ r.video),
        ("task_id", .str r.task_id),
        ("instruction", .str r.instruction),
        ("trajectory", .arr r.trajectory),
        ("token_count", optNumJ r.token_count),
        ("score", .num r.score),
        ("feedback", .str r.feedback)]

def jGet (kvs : List (String × JVal)) (k : String) : Option JVal :=
  (kvs.find? (fun p => p.1 == k)).map (·.2)

def decodeOptStr : JVal → Except String (Option String)
  | .null => .ok Option.none
  | .str s => .ok (some s)
  | _ => .error "ValidationError"

def decodeOptNum : JVal → Except String (Option ℚ)
  | .null => .ok Option.none
  | .num q => .ok (some q)
  | _ => .error "ValidationError"

def decodeStr : JVal → Except String String
  | .str s => .ok s
  | _ => .error "ValidationError"

def decodeNum : JVal → Except String ℚ
  | .num q => .ok q
  | _ => .error "ValidationError"

def decodeArr : JVal → Except String (List JVal)
  | .arr xs => .ok xs
  | _ => .error "ValidationError"

def jField (kvs : List (String × JVal)) (k : String) : Except String JVal :=
  match jGet kvs k with
  | some v => .ok v
  | Option.none => .error ("ValidationError: missing " ++ k)

/-- `TaskResult.model_validate`. -/
def validateTaskResult : JVal → Except String TaskResult
  | .obj kvs => do
      let video ← jField kvs "video" >>= decodeOptStr
      let task_id ← jField kvs "task_id" >>= decodeStr
      let instruction ← jField kvs "instruction" >>= decodeStr
      let trajectory ← jField kvs "trajectory" >>= decodeArr
      let token_count ← jField kvs "token_count" >>= decodeOptNum
      let score ← jField kvs "score" >>= decodeNum
      let feedback ← jField kvs "feedback" >>= decodeStr
      .ok ⟨video, task_id, instruction, trajectory, token_count, score, feedback⟩
  | _ => .error "ValidationError"

/-- `export_trajectory`: build the result dict (in the source's field
order), replace in-memory images via `parse_and_save_objects`, model-check
the record, and append its dump as one line of `result.jsonl`. -/
def export_trajectory (task_id instruction : String) (trajectory : List JVal)
    (score : ℚ) (feedback : String) (token_count : Option ℚ)
    (video_meta : Option String) (file : List JVal) :
    Except String (List JVal) :=
  let result_dict : JVal :=
    .obj [("video", optStrJ video_meta),
          ("task_id", .str task_id),
          ("instruction", .str instruction),
          ("trajectory", .arr trajectory),
          ("token_count", optNumJ token_count),
          ("score", .num score),
          ("feedback", .str feedback)]
  let saved := parse_and_save_objects result_dict
  match validateTaskResult saved with
  | .error e => .error e
  | .ok result => .ok (file ++ [dumpTaskResult result])

/-- `read_jsonl`: all lines between `start_idx` and `end_idx`. -/
def read_jsonl (file : List JVal) (start_idx : ℕ) (end_idx : Option ℕ) :
    Except String (List JVal) :=
  match end_idx with
  | some e =>
      if start_idx > e then .error "ValueError"
      else .ok ((file.take e).drop start_idx)
  | Option.none => .ok (file.drop start_idx)

/-- `load_result`: read `result.jsonl` and validate its first line
(`result_raw[0]` raises `IndexError` on an empty file). -/
def load_result (file : List JVal) : Except String TaskResult :=
  match read_jsonl file 0 Option.none with
  | .error e => .error e
  | .ok raw =>
      match raw with
      | [] => .error "IndexError"
      | j :: _ => validateTaskResult j

/-- Claim C7: a task result written into a fresh result directory by
`export_trajectory` and re-read by `load_result` yields a record whose
`task_id`, `score` and `feedback` equal the exported values. -/
theorem export_load_roundtrip (task_id instruction : String)
    (trajectory : List JVal) (score : ℚ) (feedback : String)
    (token_count : Option ℚ) (video : Option String) :
    ∃ (file : List JVal) (r : TaskResult),
      export_trajectory task_id instruction trajectory score feedback
          token_count video [] = .ok file
        ∧ load_result file = .ok r
        ∧ r.task_id = task_id ∧ r.score = score ∧ r.feedback = feedback := by
  refine ⟨[dumpTaskResult ⟨video, task_id, instruction, pasArr trajectory,
      token_count, score, feedback⟩],
    ⟨video, task_id, instruction, pasArr trajectory, token_count, score,
      feedback⟩, ?_, ?_, rfl, rfl, rfl⟩
  · cases video <;> cases token_count <;> rfl
  · cases video <;> cases token_count <;> rfl

/-! ## Worker status-polling loop
(playground/env/desktop_env/agent_interface.py, `RunTaskThread._wait_finish`)

The remote control plane is modelled by two response streams: `polls i` is
the response to the i-th `GET /task/status`, and `confirms j` the response
to the j-th `POST /task/confirm`.  The unbounded `while True` loop is
embedded with fuel; a first component of `none` means the loop is still
polling when the fuel runs out.  Each iteration's observable actions are
recorded as a trace (`time.sleep(1)` becomes a `sleepSec 1` event). -/

structure HttpResponse where
  status_code : ℕ
  status : String
  content : String
deriving Repr

inductive WaitEvent where
  | getStatus
  | postConfirm
  | sleepSec (n : ℕ)
deriving DecidableEq, Repr

/-- `RunTaskThread._wait_finish`: poll `GET /task/status`; assert a 200
code; `finished` breaks; `wait_for_input` posts the user's reply to
`/task/confirm` (asserting a 200 code and `success` status); `pending` and
`in_progress` just update the status bar; any other status raises
`ValueError`; every non-breaking iteration ends in `time.sleep(1)`. -/
def wait_finish (polls confirms : ℕ → HttpResponse) :
    ℕ → ℕ → ℕ → Option (Except String Unit) × List WaitEvent
  | 0, _, _ => (Option.none, [])
  | fuel + 1, i, j =>
      let r := polls i
      if r.status_code ≠ 200 then
        (some (.error "AssertionError: status_code"), [.getStatus])
      else if r.status = "finished" then (some (.ok ()), [.getStatus])
      else if r.status = "wait_for_input" then
        let c := confirms j
        if c.status_code ≠ 200 then
          (some (.error "AssertionError: status_code"),
           [.getStatus, .postConfirm])
        else if c.status ≠ "success" then
          (some (.error "AssertionError: confirm status"),
           [.getStatus, .postConfirm])
        else
          let w := wait_finish polls confirms fuel (i + 1) (j + 1)
          (w.1, .getStatus :: .postConfirm :: .sleepSec 1 :: w.2)
      else if r.status = "pending" then
        let w := wait_finish polls confirms fuel (i + 1) j
        (w.1, .getStatus :: .sleepSec 1 :: w.2)
      else if r.status = "in_progress" then
        let w := wait_finish polls confirms fuel (i + 1) j
        (w.1, .getStatus :: .sleepSec 1 :: w.2)
      else (some (.error "ValueError: Unknown status"), [.getStatus])

/-- Claim C8: `_wait_finish` never returns normally without having observed
a 200 response with status "finished"; for "pending", "in_progress" and
"wait_for_input" (with a successful confirm round trip) it keeps polling
after a one-second sleep, with no timeout or cancellation — on an
all-pending remote it polls forever; a non-200 code or a status outside
{pending, in_progress, wait_for_input, finished} aborts with an assertion
or raised error instead of recovering. -/
theorem waitFinish_terminal_spec (polls confirms : ℕ → HttpResponse) :
    (∀ fuel i j,
        (wait_finish polls confirms fuel i j).1 = some (.ok ()) →
        ∃ m, i ≤ m ∧ (polls m).status_code = 200
          ∧ (polls m).status = "finished")
    ∧ (∀ fuel i j, (polls i).status_code = 200 →
        ((polls i).status = "pending" ∨ (polls i).status = "in_progress") →
        wait_finish polls confirms (fuel + 1) i j
          = ((wait_finish polls confirms fuel (i + 1) j).1,
             .getStatus :: .sleepSec 1
               :: (wait_finish polls confirms fuel (i + 1) j).2))
    ∧ (∀ fuel i j, (polls i).status_code = 200 →
        (polls i).status = "wait_for_input" →
        (confirms j).status_code = 200 → (confirms j).status = "success" →
        wait_finish polls confirms (fuel + 1) i j
          = ((wait_finish polls confirms fuel (i + 1) (j + 1)).1,
             .getStatus :: .postConfirm :: .sleepSec 1
               :: (wait_finish polls confirms fuel (i + 1) (j + 1)).2))
    ∧ (∀ fuel i j, (polls i).status_code ≠ 200 →
        ∃ msg, (wait_finish polls confirms (fuel + 1) i j).1
          = some (.error msg))
    ∧ (∀ fuel i j, (polls i).status_code = 200 →
        (polls i).status ∉
          (["pending", "in_progress", "wait_for_input", "finished"] :
            List String) →
        ∃ msg, (wait_finish polls confirms (fuel + 1) i j).1
          = some (.error msg))
    ∧ (∀ fuel i j,
        (∀ m, (polls m).status_code = 200 ∧ (polls m).status = "pending") →
        (wait_finish polls confirms fuel i j).1 = Option.none) := by
  refine ⟨?_, ?_, ?_, ?_, ?_, ?_⟩
  · intro fuel
    induction fuel with
    | zero => intro i j h; cases h
    | succ f ih =>
        intro i j h
        rw [wait_finish] at h
        by_cases hc : (polls i).status_code ≠ 200
        · rw [if_pos hc] at h; cases h
        · rw [if_neg hc] at h
          push_neg at hc
          by_cases hf : (polls i).status = "finished"
          · exact ⟨i, le_rfl, hc, hf⟩
          · rw [if_neg hf] at h
            by_cases hw : (polls i).status = "wait_for_input"
            · rw [if_pos hw] at h
              by_cases hcc : (confirms j).status_code ≠ 200
              · rw [if_pos hcc] at h; cases h
              · rw [if_neg hcc] at h
                by_cases hcs : (confirms j).status ≠ "success"
                · rw [if_pos hcs] at h; cases h
                · rw [if_neg hcs] at h
                  obtain ⟨m, hm, hm2, hm3⟩ := ih (i + 1) (j + 1) h
                  exact ⟨m, by omega, hm2, hm3⟩
            · rw [if_neg hw] at h
              by_cases hp : (polls i).status = "pending"
              · rw [if_pos hp] at h
                obtain ⟨m, hm, hm2, hm3⟩ := ih (i + 1) j h
                exact ⟨m, by omega, hm2, hm3⟩
              · rw [if_neg hp] at h
                by_cases hip : (polls i).status = "in_progress"
                · rw [if_pos hip] at h
                  obtain ⟨m, hm, hm2, hm3⟩ := ih (i + 1) j h
                  exact ⟨m, by omega, hm2, hm3⟩
                · rw [if_neg hip] at h; cases h
  · intro fuel i j hc hs
    rw [wait_finish, if_neg (by omega), if_neg ?hfin, if_neg ?hwait]
    case hfin => rcases hs with hs | hs <;> rw [hs] <;> decide
    case hwait => rcases hs with hs | hs <;> rw [hs] <;> decide
    rcases hs with hs | hs
    · rw [if_pos hs]
    · rw [if_neg (by rw [hs]; decide), if_pos hs]
  · intro fuel i j hc hs hcc hcs
    rw [wait_finish, if_neg (by omega), if_neg (by rw [hs]; decide),
      if_pos hs, if_neg (by omega), if_neg (by rw [hcs]; simp)]
  · intro fuel i j hc
    rw [wait_finish, if_pos hc]
    exact ⟨_, rfl⟩
  · intro fuel i j hc hs
    simp only [List.mem_cons, List.not_mem_nil, or_false, not_or] at hs
    obtain ⟨hp, hip, hw, hf⟩ := hs
    rw [wait_finish, if_neg (by omega), if_neg hf, if_neg hw, if_neg hp,
      if_neg hip]
    exact ⟨_, rfl⟩
  · intro fuel
    induction fuel with
    | zero => intro i j _; rfl
    | succ f ih =>
        intro i j hall
        rw [wait_finish, if_neg (by have := (hall i).1; omega),
          if_neg (by rw [(hall i).2]; decide),
          if_neg (by rw [(hall i).2]; decide), if_pos (hall i).2]
        exact ih (i + 1) j hall

/-- A remote that reports "pending" twice and then "finished". -/
def examplePolls : ℕ → HttpResponse :=
  fun i => if i < 2 then ⟨200, "pending", ""⟩ else ⟨200, "finished", ""⟩

def exampleConfirms : ℕ → HttpResponse := fun _ => ⟨200, "success", ""⟩

theorem waitFinish_terminal_spec_witness :
    ∃ m, 0 ≤ m ∧ (examplePolls m).status_code = 200
      ∧ (examplePolls m).status = "finished" :=
  (waitFinish_terminal_spec examplePolls exampleConfirms).1 3 0 0 (by rfl)

end AgentStudio
